import Mathlib

/-!
Verification development for the jpamb_group30 analyzer.

This file gives a shallow embedding, in Lean 4, of the parts of the
repository the checked claims are about:

* `src/abstract_interpreter/interval_abstraction.py` — the interval lattice
  (`Infinity`, `Interval`, `Arithmetic`), embedded in namespace `Jpamb.Itv`.
* `src/interpreter/interpreter.py` — the concrete interpreter (`step`),
  embedded in namespace `Jpamb.Interp`.
* `src/group30/abstract_interpreter.py` — the abstract interpreter
  (`AbstractValue`, `PerVarFrame`, `AState`, `StateSet`, `step`,
  `abstract_interpretation`), embedded in namespace `Jpamb.AbsInt`.

Modelling conventions, stated once here:

* Python `int` is unbounded, so integers are `Int`; `sys.maxsize` on the
  64-bit CPython the project runs on is `2^63 - 1`.
* Python lists used as stacks (`Stack.items`, appended at the right and
  popped with `pop(-1)`) are embedded as Lean `List`s with the TOP OF THE
  STACK AT THE HEAD; `items + [v]` therefore becomes `v :: s`, `items[-1]`
  becomes `s.head?`, `items[:-1]` becomes `s.tail`, `items[:-2]` becomes
  `s.drop 2`.
* Python dicts keyed by `int` (`Frame.locals`) become association lists
  `List (Nat × v)`; `dict[k]` is the first binding of `k` (`KeyError`
  when absent), `dict[k] = v` replaces the binding or appends it.
  The concrete heap (`dict[int, Value]` whose keys are always the
  consecutive allocation counters `0, 1, ...`) becomes a plain `List`.
* Python exceptions (`AssertionError` from `assert`, `NotImplementedError`,
  `KeyError`, `IndexError`, `ZeroDivisionError`, `ValueError`, `TypeError`)
  all abort the run; the embedding returns a `fatal`/`Except.error` value
  carrying the exception name.
* The `jpamb.jvm` opcode/type/value library is external to the repository;
  its data shapes are modelled from the spec (§3 "Opcode", "Type",
  "Value"): types form a closed sum with structural equality (the
  library's interned instances make Python `is` on types agree with
  structural equality), values pair a type with a payload.
* `frozenset` iteration in `Interval.widening` is commented in the source
  with "assume that K is a sorted set" and `init_K` stores
  `frozenset(sorted(vals))`; the K set is embedded as the sorted,
  duplicate-free list of its elements, iterated in ascending order.
-/

namespace Jpamb

/-- Extended integers: the payload of `Interval` bounds, `int | Infinity`
from `interval_abstraction.py` (`Infinity(positive)` plus Python ints). -/
inductive EInt where
  | neginf : EInt
  | num : Int → EInt
  | posinf : EInt
  deriving DecidableEq, Repr

namespace EInt

/-- The order on bounds: Python's `<`/`<=`/`>`/`>=` on `int | Infinity`
(`Infinity.__lt__`/`__le__`/`__gt__`/`__ge__` and their reflections). -/
def ble : EInt → EInt → Bool
  | .neginf, _ => true
  | .num _, .neginf => false
  | .num a, .num b => a ≤ b
  | .num _, .posinf => true
  | .posinf, .posinf => true
  | .posinf, _ => false

def blt (a b : EInt) : Bool := ble a b && !(a = b : Bool)

/-- Python `min(a, b)` on bounds. -/
def emin (a b : EInt) : EInt := if ble a b then a else b

/-- Python `max(a, b)` on bounds. -/
def emax (a b : EInt) : EInt := if ble a b then b else a

/-- Bound addition, `Infinity.__add__`/`__radd__` plus `int + int`;
`none` models the `ValueError("Infinity - Infinity is undefined")`. -/
def add : EInt → EInt → Option EInt
  | .num a, .num b => some (.num (a + b))
  | .posinf, .neginf => none
  | .neginf, .posinf => none
  | .posinf, _ => some .posinf
  | .neginf, _ => some .neginf
  | _, .posinf => some .posinf
  | _, .neginf => some .neginf

/-- Bound subtraction, `Infinity.__sub__`/`__rsub__` plus `int - int`;
`none` models the `ValueError` on same-signed infinities. -/
def sub : EInt → EInt → Option EInt
  | .num a, .num b => some (.num (a - b))
  | .posinf, .posinf => none
  | .neginf, .neginf => none
  | .posinf, _ => some .posinf
  | .neginf, _ => some .neginf
  | _, .posinf => some .neginf
  | _, .neginf => some .posinf

/-- Bound multiplication, `Infinity.__mul__`/`__rmul__` plus `int * int`;
`inf * 0 = 0` by the source's convention. Total. -/
def mul : EInt → EInt → EInt
  | .num a, .num b => .num (a * b)
  | .posinf, .posinf => .posinf
  | .posinf, .neginf => .neginf
  | .neginf, .posinf => .neginf
  | .neginf, .neginf => .posinf
  | .posinf, .num b => if b = 0 then .num 0 else if 0 < b then .posinf else .neginf
  | .neginf, .num b => if b = 0 then .num 0 else if 0 < b then .neginf else .posinf
  | .num a, .posinf => if a = 0 then .num 0 else if 0 < a then .posinf else .neginf
  | .num a, .neginf => if a = 0 then .num 0 else if 0 < a then .neginf else .posinf

/-- Bound floor division, `Infinity.__floordiv__`/`__rfloordiv__` plus
Python `int // int` (floor division, `Int.fdiv`); `none` models the
`ValueError`/`ZeroDivisionError` on a zero divisor. `inf // inf = 0`
(conservative, per the source); `number // inf = 0`. -/
def fdiv : EInt → EInt → Option EInt
  | .num a, .num b => if b = 0 then none else some (.num (Int.fdiv a b))
  | .posinf, .posinf => some (.num 0)
  | .posinf, .neginf => some (.num 0)
  | .neginf, .posinf => some (.num 0)
  | .neginf, .neginf => some (.num 0)
  | .posinf, .num b => if b = 0 then none else if 0 < b then some .posinf else some .neginf
  | .neginf, .num b => if b = 0 then none else if 0 < b then some .neginf else some .posinf
  | .num _, .posinf => some (.num 0)
  | .num _, .neginf => some (.num 0)

end EInt

/-- `Interval` from `interval_abstraction.py`: bounds, the constant set K
(a `frozenset`, embedded as its sorted duplicate-free element list), and
the `use_widening` flag (default `True`). -/
structure Interval where
  lower : EInt
  upper : EInt
  K : List Int := []
  useWidening : Bool := true
  deriving DecidableEq, Repr

namespace Interval

/-- `Interval.empty()`: the empty interval, represented by `lower > upper`. -/
def empty : Interval := { lower := .posinf, upper := .neginf }

/-- `Interval.universal()`: the top interval `[-∞, ∞]`. -/
def universal : Interval := { lower := .neginf, upper := .posinf }

/-- `Interval.is_empty`: `lower > upper`. -/
def isEmpty (x : Interval) : Bool := EInt.blt x.upper x.lower

/-- `Interval.__le__`: the lattice order (empty below everything). -/
def le (x y : Interval) : Bool :=
  if x.isEmpty then true
  else if y.isEmpty then false
  else EInt.ble y.lower x.lower && EInt.ble x.upper y.upper

/-- `Interval.__contains__`: `lower <= member <= upper` on non-empty
intervals, `False` on empty ones. -/
def containsE (x : Interval) (m : EInt) : Bool :=
  if x.isEmpty then false else EInt.ble x.lower m && EInt.ble m x.upper

/-- `min_K_J(a, b, Ks)` inside `Interval.widening`: the last element of
(the ascending iteration of) `Ks` that is `≤ min(a, b)`, accumulated in
`ret` which starts at `-∞`; `-∞` immediately if either bound is `-∞` or
`Ks` is empty. -/
def minKJ (a b : EInt) (Ks : List Int) : EInt :=
  if a = .neginf then .neginf
  else if b = .neginf then .neginf
  else if Ks = [] then .neginf
  else loop Ks .neginf
where
  loop : List Int → EInt → EInt
    | [], ret => ret
    | k :: rest, ret =>
      if EInt.blt (EInt.emin a b) (.num k) then ret else loop rest (.num k)

/-- `max_K_J(a, b, Ks)` inside `Interval.widening`: the first element of
`Ks` that is `≥ max(a, b)`, else `+∞`; `+∞` immediately if either bound is
`+∞` or `Ks` is empty. -/
def maxKJ (a b : EInt) (Ks : List Int) : EInt :=
  if a = .posinf then .posinf
  else if b = .posinf then .posinf
  else if Ks = [] then .posinf
  else loop Ks
where
  loop : List Int → EInt
    | [] => .posinf
    | k :: rest => if EInt.ble (EInt.emax a b) (.num k) then .num k else loop rest

/-- `Interval.widening(self, other)`: empty operands pass the other side
through; otherwise both bounds are snapped outward to K (or ±∞) and the
result keeps `self.K` (and the constructor's default `use_widening=True`). -/
def widening (x y : Interval) : Interval :=
  if x.isEmpty then y
  else if y.isEmpty then x
  else { lower := minKJ x.lower y.lower x.K
         upper := maxKJ x.upper y.upper x.K
         K := x.K }

/-- `Interval.__or__`: widening when `self.use_widening` (the default),
otherwise the plain join with K taken from the first operand whose K is
non-empty. -/
def orOp (x y : Interval) : Interval :=
  if x.useWidening then x.widening y
  else if x.isEmpty then y
  else if y.isEmpty then x
  else { lower := EInt.emin x.lower y.lower
         upper := EInt.emax x.upper y.upper
         K := if x.K ≠ [] then x.K else y.K }

/-- `Interval.__and__`: the meet; the result drops K and `use_widening`
back to the constructor defaults. -/
def andOp (x y : Interval) : Interval :=
  if x.isEmpty || y.isEmpty then empty
  else
    let lo := EInt.emax x.lower y.lower
    let hi := EInt.emin x.upper y.upper
    if EInt.blt hi lo then empty else { lower := lo, upper := hi }

end Interval

/- `Arithmetic` from `interval_abstraction.py` (the parts the claims
use). These do not check emptiness themselves; `none` propagates a bound
arithmetic `ValueError` (∞ − ∞ and the like) as a fatal error. -/
namespace Arithmetic

/-- `Arithmetic.add`: `[a,b] + [c,d] = [a+c, b+d]`, K from the first
operand with a non-empty K. -/
def add (a b : Interval) : Option Interval := do
  let lo ← EInt.add a.lower b.lower
  let hi ← EInt.add a.upper b.upper
  pure { lower := lo, upper := hi, K := if a.K ≠ [] then a.K else b.K }

/-- `Arithmetic.sub`: `[a,b] - [c,d] = [a-d, b-c]`, K as in `add`. -/
def sub (a b : Interval) : Option Interval := do
  let lo ← EInt.sub a.lower b.upper
  let hi ← EInt.sub a.upper b.lower
  pure { lower := lo, upper := hi, K := if a.K ≠ [] then a.K else b.K }

end Arithmetic

end Jpamb

namespace Jpamb

/-- JVM types (`jvm.Type`), modelled from the spec (§3): primitives,
references, arrays, objects. Equality is structural (the library interns
type instances, making Python `is`/`==` on types agree with it). -/
inductive JType where
  | int
  | short
  | char
  | boolean
  | reference
  | array (elem : JType)
  | object (name : String)
  deriving DecidableEq, Repr

/-- Payloads of concrete `jvm.Value`s, modelled from the spec (§3):
integers for numeric primitives, `True`/`False` for booleans, a
one-character string (its code point here) for chars, a heap index or
Python `None` for references, a list for arrays stored in the heap. -/
inductive Payload where
  | pInt (i : Int)
  | pBool (b : Bool)
  | pChar (c : Nat)
  | pRef (r : Option Nat)
  | pList (l : List Payload)

namespace Payload

/-- The Python numeric view of a payload: `int`s are themselves, `bool`s
count as 0/1 (Python `bool` is an `int` subclass), a non-null reference
payload is the plain heap-index integer it is stored as. `none` where
Python arithmetic/ordering on the payload would raise `TypeError`. -/
def pyNum : Payload → Option Int
  | .pInt i => some i
  | .pBool b => some (if b then 1 else 0)
  | .pRef (some r) => some (r : Int)
  | _ => none

/-- Python `==` between payloads: numeric values compare numerically
(`True == 1`, `0 == False`), chars compare as strings, `None == None`;
mismatched kinds compare unequal. (Array payloads live only in the heap,
never on an operand stack, so list-list comparison does not occur.) -/
def pyEq (p q : Payload) : Bool :=
  match p.pyNum, q.pyNum with
  | some a, some b => a = b
  | _, _ =>
    match p, q with
    | .pChar a, .pChar b => a = b
    | .pRef none, .pRef none => true
    | _, _ => false

/-- Python three-way ordering between payloads; `none` models the
`TypeError` raised by `<`/`<=`/`>`/`>=` on incomparable kinds. -/
def pyCmp (p q : Payload) : Option Ordering :=
  match p.pyNum, q.pyNum with
  | some a, some b => some (compare a b)
  | _, _ =>
    match p, q with
    | .pChar a, .pChar b => some (compare a b)
    | _, _ => none

end Payload

/-- A concrete `jvm.Value`: a type paired with a payload. -/
structure JValue where
  type : JType
  value : Payload

/-- `jvm.Value.int(i)`. -/
def JValue.int (i : Int) : JValue := ⟨.int, .pInt i⟩

/-- Branch conditions of `Ifz`/`If`. -/
inductive Cond where
  | eq | ne | lt | le | gt | ge
  deriving DecidableEq, Repr

/-- `c.holds a b` : the comparison `a c b` on integers (`Ifz` compares
against `b = 0`). -/
def Cond.holds : Cond → Int → Int → Bool
  | .eq, a, b => a = b
  | .ne, a, b => a ≠ b
  | .lt, a, b => a < b
  | .le, a, b => a ≤ b
  | .gt, a, b => a > b
  | .ge, a, b => a ≥ b

/-- `jvm.BinaryOpr`. -/
inductive BinOp where
  | add | sub | mul | div | rem
  deriving DecidableEq, Repr

/-- Method identifiers (`jvm.AbsMethodID`), kept opaque as strings. -/
abbrev MethodId := String

/-- The opcode alphabet (`jvm.Opcode`), modelled from the spec (§3) with
the payload shapes the interpreters inspect. `invokeStatic` carries the
callee's parameter count (`len(methodid.params)`); `invokeSpecial`
carries whether the 24-character method-name prefix is
`java/lang/AssertionError`; `getField` carries the field-name part after
the dot (`str(f).split('.')[1]`). -/
inductive Opcode where
  | push (v : JValue)
  | load (t : JType) (i : Nat)
  | store (t : JType) (i : Nat)
  | dup (words : Nat)
  | incr (i : Nat) (amount : Int)
  | binary (t : JType) (op : BinOp)
  | cast (src tgt : JType)
  | ifz (c : Cond) (target : Nat)
  | ifCmp (c : Cond) (target : Nat)
  | goto (target : Nat)
  | ret (t : Option JType)
  | newObj (className : String)
  | invokeStatic (callee : MethodId) (nparams : Nat)
  | invokeSpecial (isAssertionError : Bool)
  | getField (fieldSuffix : String) (static : Bool)
  | newArray (t : JType) (dim : Nat)
  | arrayLoad (t : JType)
  | arrayStore (t : JType)
  | arrayLength
  | throwOp

/-- A program counter (`PC`): method and 0-based opcode offset. -/
structure PC where
  method : MethodId
  offset : Nat
  deriving DecidableEq, Repr

/-- `pc + delta`. -/
def PC.add (pc : PC) (delta : Nat) : PC := { pc with offset := pc.offset + delta }

/-- `pc.set(t)`. -/
def PC.setOff (pc : PC) (t : Nat) : PC := { pc with offset := t }

/-- A loaded program: opcode list per method (the `Bytecode` cache,
with the external loader abstracted into the mapping itself). -/
abbrev Program := MethodId → List Opcode

/-- `bc[pc]`: `opcodes[pc.offset]`, `none` for the `IndexError` on an
out-of-range offset. -/
def bcLookup (prog : Program) (pc : PC) : Option Opcode :=
  (prog pc.method).get? pc.offset

namespace Interp

/-- `Frame.locals`: a dict from local index to value. -/
abbrev Locals := List (Nat × JValue)

/-- `locals[i]` (first binding wins; `none` = `KeyError`). -/
def lookupLocal : Locals → Nat → Option JValue
  | [], _ => none
  | (k', v) :: rest, k => if k' = k then some v else lookupLocal rest k

/-- `locals[i] = v`: replace the binding in place or append it. -/
def setLocal : Locals → Nat → JValue → Locals
  | [], k, v => [(k, v)]
  | (k', v') :: rest, k, v =>
    if k' = k then (k, v) :: rest else (k', v') :: setLocal rest k v

/-- A concrete `Frame`: locals, operand stack (head = top), PC. -/
structure Frame where
  locals : Locals
  stack : List JValue
  pc : PC

/-- A concrete `State`: heap (allocation index = position) and the
non-empty call stack of frames (head = top). -/
structure State where
  heap : List JValue
  frames : List Frame

/-- The result of one concrete step: a successor state, a terminal label
(`"ok"`, `"divide by zero"`, ...), or a fatal Python exception. -/
inductive StepRes where
  | next (s : State)
  | term (label : String)
  | fatal (exc : String)

/-- Pop `n` values off a stack: the popped values in pop order plus the
remainder; `none` = `IndexError` (stack underflow). -/
def popN : Nat → List JValue → Option (List JValue × List JValue)
  | 0, s => some ([], s)
  | _ + 1, [] => none
  | n + 1, v :: s => (popN n s).map (fun p => (v :: p.1, p.2))

/-- Locals of a freshly invoked callee frame: the `i`-th popped argument
(popped from the top) goes to local `n-1-i`
(`for i in range(n-1, -1, -1): new_frame.locals[i] = frame.stack.pop()`). -/
def calleeLocals : List JValue → Nat → Locals
  | [], _ => []
  | v :: vs, n => (n - 1, v) :: calleeLocals vs (n - 1)

/-- Element read `lst[i]` with Python index semantics: non-negative
indices from the front, negative indices wrap from the back, `none` =
`IndexError` beyond either end. -/
def pyIndex (l : List Payload) (i : Int) : Option Payload :=
  if 0 ≤ i then l.get? i.toNat
  else if -(l.length : Int) ≤ i then l.get? ((l.length : Int) + i).toNat
  else none

/-- Element write `lst[i] = v` with Python index semantics. -/
def pySet (l : List Payload) (i : Int) (v : Payload) : Option (List Payload) :=
  if 0 ≤ i then if i < (l.length : Int) then some (l.set i.toNat v) else none
  else if -(l.length : Int) ≤ i then some (l.set ((l.length : Int) + i).toNat v)
  else none

/-- `step(state)` from `src/interpreter/interpreter.py`, embedded case by
case in source order. The duplicated dead `match` arms of the source
(a second `jvm.New` case and a second `jvm.ArrayLength` case that the
first occurrences shadow) are represented by their first occurrences. -/
def step (prog : Program) (state : State) : StepRes :=
  match state.frames with
  | [] => .fatal "IndexError"
  | frame :: restFrames =>
    match bcLookup prog frame.pc with
    | none => .fatal "IndexError"
    | some opr =>
      match opr with
      | .getField f _ =>
        if f = "$assertionsDisabled:Z" then
          .next { state with frames :=
            { frame with stack := JValue.int 0 :: frame.stack, pc := frame.pc.add 1 } :: restFrames }
        else .fatal "NotImplementedError"
      | .goto t =>
        .next { state with frames := { frame with pc := frame.pc.setOff t } :: restFrames }
      | .newObj c =>
        if c = "java/lang/AssertionError" then .term "assertion error"
        else .fatal "NotImplementedError"
      | .ifz c t =>
        match frame.stack with
        | [] => .fatal "IndexError"
        | v :: rest =>
          let vNum : Option Int :=
            if v.type = .boolean then
              some (if v.value.pyEq (.pBool false) then 0 else 1)
            else
              match v.value with
              | .pInt i => some i
              | .pRef (some r) => some (r : Int)
              | _ => none
          match vNum with
          | none => .fatal "AssertionError"
          | some i =>
            let pc' := if c.holds i 0 then frame.pc.setOff t else frame.pc.add 1
            .next { state with frames := { frame with stack := rest, pc := pc' } :: restFrames }
      | .ifCmp c t =>
        match frame.stack with
        | v2 :: v1 :: rest =>
          let p2 := v2.value
          let p1? : Option Payload :=
            if v1.type = .char then
              match v1.value with
              | .pChar ch => some (.pInt (ch : Int))
              | _ => none
            else some v1.value
          match p1? with
          | none => .fatal "TypeError"
          | some p1 =>
            let jump? : Option Bool :=
              match c with
              | .eq => some (p1.pyEq p2)
              | .ne => some (!p1.pyEq p2)
              | .lt => (p1.pyCmp p2).map (· = .lt)
              | .ge => (p1.pyCmp p2).map (· ≠ .lt)
              | .gt => (p1.pyCmp p2).map (· = .gt)
              | .le => (p1.pyCmp p2).map (· ≠ .gt)
            match jump? with
            | none => .fatal "TypeError"
            | some jump =>
              let pc' := if jump then frame.pc.setOff t else frame.pc.add 1
              .next { state with frames := { frame with stack := rest, pc := pc' } :: restFrames }
        | _ => .fatal "IndexError"
      | .arrayLength =>
        match frame.stack with
        | [] => .fatal "IndexError"
        | ref :: rest =>
          if ref.type = .reference then
            match ref.value with
            | .pRef none => .term "null pointer"
            | .pRef (some idx) =>
              match state.heap.get? idx with
              | none => .fatal "KeyError"
              | some arr =>
                match arr.type, arr.value with
                | .array _, .pList l =>
                  .next { state with frames :=
                    { frame with stack := JValue.int l.length :: rest,
                                 pc := frame.pc.add 1 } :: restFrames }
                | .array _, _ => .fatal "TypeError"
                | _, _ => .fatal "AssertionError"
            | _ => .fatal "TypeError"
          else .fatal "AssertionError"
      | .dup _ =>
        match frame.stack with
        | [] => .fatal "IndexError"
        | v :: _ =>
          .next { state with frames :=
            { frame with stack := v :: frame.stack, pc := frame.pc.add 1 } :: restFrames }
      | .push v =>
        .next { state with frames :=
          { frame with stack := v :: frame.stack, pc := frame.pc.add 1 } :: restFrames }
      | .store t idx =>
        if t = .int then
          match frame.stack with
          | [] => .fatal "IndexError"
          | v :: rest =>
            if v.type = .int then
              .next { state with frames :=
                { frame with locals := setLocal frame.locals idx v, stack := rest,
                             pc := frame.pc.add 1 } :: restFrames }
            else .fatal "AssertionError"
        else if t = .reference then
          match frame.stack with
          | [] => .fatal "IndexError"
          | v :: rest =>
            if v.type = .reference then
              .next { state with frames :=
                { frame with locals := setLocal frame.locals idx v, stack := rest,
                             pc := frame.pc.add 1 } :: restFrames }
            else .fatal "AssertionError"
        else .fatal "NotImplementedError"
      | .arrayStore t =>
        if t = .int then
          match frame.stack with
          | value :: index :: ref :: rest =>
            if value.type = .int ∧ index.type = .int then
              if ref.type = .reference then
                match ref.value with
                | .pRef none => .term "null pointer"
                | .pRef (some r) =>
                  match state.heap.get? r with
                  | none => .fatal "KeyError"
                  | some arr =>
                    if arr.type = .array .int then
                      match arr.value, index.value.pyNum with
                      | .pList l, some i =>
                        if (l.length : Int) ≤ i then .term "out of bounds"
                        else
                          match pySet l i value.value with
                          | none => .fatal "IndexError"
                          | some l' =>
                            .next { heap := state.heap.set r ⟨arr.type, .pList l'⟩,
                                    frames :=
                                      { frame with
                                        stack := rest,
                                        pc := frame.pc.add 1 } :: restFrames }
                      | _, _ => .fatal "TypeError"
                    else .fatal "AssertionError"
                | _ => .fatal "TypeError"
              else .fatal "AssertionError"
            else .fatal "AssertionError"
          | _ => .fatal "IndexError"
        else .fatal "NotImplementedError"
      | .arrayLoad t =>
        match frame.stack with
        | idx :: ref :: rest =>
          if ref.type = .reference then
            match ref.value with
            | .pRef none => .fatal "KeyError"
            | .pRef (some r) =>
              match state.heap.get? r with
              | none => .fatal "KeyError"
              | some arr =>
                match arr.type with
                | .array _ =>
                  match arr.value, idx.value.pyNum with
                  | .pList l, some i =>
                    if (l.length : Int) ≤ i then .term "out of bounds"
                    else
                      match pyIndex l i with
                      | none => .fatal "IndexError"
                      | some e =>
                        .next { state with frames :=
                          { frame with stack := ⟨t, e⟩ :: rest,
                                       pc := frame.pc.add 1 } :: restFrames }
                  | _, _ => .fatal "TypeError"
                | _ => .fatal "AssertionError"
            | _ => .fatal "TypeError"
          else .fatal "AssertionError"
        | _ => .fatal "IndexError"
      | .load t i =>
        if t = .int ∨ t = .reference then
          match lookupLocal frame.locals i with
          | none => .fatal "KeyError"
          | some v =>
            .next { state with frames :=
              { frame with stack := v :: frame.stack, pc := frame.pc.add 1 } :: restFrames }
        else .fatal "NotImplementedError"
      | .binary t op =>
        if t = .int then
          match frame.stack with
          | v2 :: v1 :: rest =>
            if v1.type = .int ∧ v2.type = .int then
              match op with
              | .div =>
                if v2.value.pyEq (.pInt 0) then .term "divide by zero"
                else
                  match v1.value.pyNum, v2.value.pyNum with
                  | some a, some b =>
                    .next { state with frames :=
                      { frame with stack := JValue.int (Int.fdiv a b) :: rest,
                                   pc := frame.pc.add 1 } :: restFrames }
                  | _, _ => .fatal "TypeError"
              | .sub =>
                match v1.value.pyNum, v2.value.pyNum with
                | some a, some b =>
                  .next { state with frames :=
                    { frame with stack := JValue.int (a - b) :: rest,
                                 pc := frame.pc.add 1 } :: restFrames }
                | _, _ => .fatal "TypeError"
              | .add =>
                match v1.value.pyNum, v2.value.pyNum with
                | some a, some b =>
                  .next { state with frames :=
                    { frame with stack := JValue.int (a + b) :: rest,
                                 pc := frame.pc.add 1 } :: restFrames }
                | _, _ => .fatal "TypeError"
              | .mul =>
                match v1.value.pyNum, v2.value.pyNum with
                | some a, some b =>
                  .next { state with frames :=
                    { frame with stack := JValue.int (a * b) :: rest,
                                 pc := frame.pc.add 1 } :: restFrames }
                | _, _ => .fatal "TypeError"
              | .rem =>
                match v1.value.pyNum, v2.value.pyNum with
                | some a, some b =>
                  if b = 0 then .fatal "ZeroDivisionError"
                  else
                    .next { state with frames :=
                      { frame with stack := JValue.int (Int.fmod a b) :: rest,
                                   pc := frame.pc.add 1 } :: restFrames }
                | _, _ => .fatal "TypeError"
            else .fatal "AssertionError"
          | _ => .fatal "IndexError"
        else .fatal "NotImplementedError"
      | .cast _ tgt =>
        match frame.stack with
        | [] => .fatal "IndexError"
        | v :: rest =>
          match tgt with
          | .short =>
            .next { state with frames :=
              { frame with stack := v :: rest, pc := frame.pc.add 1 } :: restFrames }
          | _ => .fatal "NotImplementedError"
      | .incr idx n =>
        match lookupLocal frame.locals idx with
        | none => .fatal "KeyError"
        | some v =>
          if v.type = .int then
            match v.value.pyNum with
            | some i =>
              .next { state with frames :=
                { frame with locals := setLocal frame.locals idx (JValue.int (i + n)),
                             pc := frame.pc.add 1 } :: restFrames }
            | none => .fatal "TypeError"
          else .fatal "AssertionError"
      | .ret ty =>
        match ty with
        | some .int | some .reference =>
          match frame.stack with
          | [] => .fatal "IndexError"
          | v1 :: _ =>
            match restFrames with
            | [] => .term "ok"
            | caller :: below =>
              .next { state with frames :=
                { caller with stack := v1 :: caller.stack,
                              pc := caller.pc.add 1 } :: below }
        | none =>
          match restFrames with
          | [] => .term "ok"
          | caller :: below =>
            .next { state with frames := { caller with pc := caller.pc.add 1 } :: below }
        | some _ => .fatal "NotImplementedError"
      | .newArray t dim =>
        if t = .int then
          if dim ≤ 1 then
            match frame.stack with
            | [] => .fatal "IndexError"
            | size :: rest =>
              match size.value.pyNum with
              | none => .fatal "TypeError"
              | some n =>
                let arr : JValue := ⟨.array .int, .pList (List.replicate n.toNat (.pInt 0))⟩
                let r := state.heap.length
                .next { heap := state.heap ++ [arr],
                        frames := { frame with
                          stack := ⟨.reference, .pRef (some r)⟩ :: rest,
                          pc := frame.pc.add 1 } :: restFrames }
          else .fatal "AssertionError"
        else .fatal "NotImplementedError"
      | .invokeSpecial isAE =>
        if isAE then .term "assertion error" else .fatal "AssertionError"
      | .invokeStatic callee n =>
        match popN n frame.stack with
        | none => .fatal "IndexError"
        | some (args, rest) =>
          .next { state with frames :=
            ⟨calleeLocals args n, [], ⟨callee, 0⟩⟩ ::
            { frame with stack := rest } :: restFrames }
      | _ => .fatal "NotImplementedError"

/-- Operands an opcode pops (or peeks) from the operand stack before any
other effect, per the source's `step`; 0 for the opcodes the concrete
interpreter rejects outright. -/
def operandsNeeded : Opcode → Nat
  | .push _ => 0
  | .load _ _ => 0
  | .store t _ => if t = .int ∨ t = .reference then 1 else 0
  | .dup _ => 1
  | .incr _ _ => 0
  | .binary t _ => if t = .int then 2 else 0
  | .cast _ _ => 1
  | .ifz _ _ => 1
  | .ifCmp _ _ => 2
  | .goto _ => 0
  | .ret t => match t with | some .int => 1 | some .reference => 1 | _ => 0
  | .newObj _ => 0
  | .invokeStatic _ n => n
  | .invokeSpecial _ => 0
  | .getField _ _ => 0
  | .newArray t d => if t = .int ∧ d ≤ 1 then 1 else 0
  | .arrayLoad _ => 2
  | .arrayStore t => if t = .int then 3 else 0
  | .arrayLength => 1
  | .throwOp => 0

end Interp

namespace AbsInt

/-- `sys.maxsize` on the 64-bit CPython the analyzer runs on. -/
def maxsize : Int := 2 ^ 63 - 1

/-- Insert into a sorted list (ascending). -/
def insertSorted (x : Int) : List Int → List Int
  | [] => [x]
  | y :: ys => if x ≤ y then x :: y :: ys else y :: insertSorted x ys

/-- The K constant set as stored by `Interval.init_K`:
`frozenset(sorted(vals))`, i.e. the sorted duplicate-free element list. -/
def sortK (K : List Int) : List Int := K.dedup.foldr insertSorted []

/-- `min(sorted_K)` (only used under a `K` non-emptiness guard). -/
def kMin (K : List Int) : Int := (sortK K).headD 0

/-- `max(sorted_K)` (only used under a `K` non-emptiness guard). -/
def kMax (K : List Int) : Int := (sortK K).getLastD 0

/-- `AbstractValue` from `src/group30/abstract_interpreter.py`: a JVM
type paired with an interval. -/
structure AbstractValue where
  type : JType
  interval : Interval
  deriving DecidableEq, Repr

namespace AbstractValue

/-- `AbstractValue.from_concrete_w_K(K, type)`: int parameters get
`[min K, max K]` annotated with K when K is non-empty, the huge finite
interval `[-sys.maxsize, sys.maxsize]` when K is empty; non-int types get
the empty (untracked) interval. -/
def from_concrete_w_K (K : List Int) (t : JType) : AbstractValue :=
  if t = .int then
    if K ≠ [] then
      ⟨.int, { lower := .num (kMin K), upper := .num (kMax K), K := sortK K }⟩
    else
      ⟨.int, { lower := .num (-maxsize), upper := .num maxsize }⟩
  else ⟨t, Interval.empty⟩

/-- `AbstractValue.from_concrete(value)` (int values carry int payloads). -/
def from_concrete (v : JValue) : AbstractValue :=
  if v.type = .int then
    match v.value with
    | .pInt i => ⟨.int, { lower := .num i, upper := .num i }⟩
    | _ => ⟨.int, Interval.empty⟩
  else ⟨v.type, Interval.empty⟩

/-- `AbstractValue.int_interval(interval)`. -/
def int_interval (i : Interval) : AbstractValue := ⟨.int, i⟩

/-- `AbstractValue.__or__`: join types' intervals (the `isinstance`
guard never fails inside the analyzer). -/
def orOp (a b : AbstractValue) : AbstractValue :=
  ⟨a.type, a.interval.orOp b.interval⟩

end AbstractValue

/-- Abstract locals: dict from local index to abstract value. -/
abbrev ALocals := List (Nat × AbstractValue)

/-- `locals[i]` (`none` = key absent). -/
def lookupA : ALocals → Nat → Option AbstractValue
  | [], _ => none
  | (k', v) :: rest, k => if k' = k then some v else lookupA rest k

/-- `locals[i] = v`. -/
def setA : ALocals → Nat → AbstractValue → ALocals
  | [], k, v => [(k, v)]
  | (k', v') :: rest, k, v =>
    if k' = k then (k, v) :: rest else (k', v') :: setA rest k v

/-- `PerVarFrame`: abstract locals plus abstract operand stack
(head = top, as everywhere in this file). -/
structure PerVarFrame where
  locals : ALocals
  stack : List AbstractValue
  deriving DecidableEq, Repr

/-- Insert into a sorted `Nat` list (ascending). -/
def insertSortedNat (x : Nat) : List Nat → List Nat
  | [] => [x]
  | y :: ys => if x ≤ y then x :: y :: ys else y :: insertSortedNat x ys

/-- The union of two key sets, in ascending order (Python iterates the
set `self.locals.keys() | other.locals.keys()`; dict equality is
key-order-insensitive, so the embedding fixes ascending order). -/
def keyUnion (a b : ALocals) : List Nat :=
  ((a.map (·.1) ++ b.map (·.1)).dedup).foldr insertSortedNat []

/-- Pointwise stack join of `PerVarFrame.__or__`: Python joins
`items[i] | other.items[i]` for `i` up to the shorter length, indexing
from the BOTTOM of the stack; with head-at-top lists this is a reversed
zip. The longer stack's extra top entries are dropped. -/
def joinStacks (s t : List AbstractValue) : List AbstractValue :=
  ((s.reverse.zip t.reverse).map (fun p => p.1.orOp p.2)).reverse

/-- `PerVarFrame.__or__`: join locals over the union of keys (one-sided
keys keep their value), join stacks pointwise up to the shorter depth. -/
def PerVarFrame.orOp (a b : PerVarFrame) : PerVarFrame :=
  { locals := (keyUnion a.locals b.locals).filterMap (fun k =>
      match lookupA a.locals k, lookupA b.locals k with
      | some x, some y => some (k, x.orOp y)
      | some x, none => some (k, x)
      | none, some y => some (k, y)
      | none, none => none)
    stack := joinStacks a.stack b.stack }

/-- `AState`: frame stack (head = top) plus the program counter. -/
structure AState where
  frames : List PerVarFrame
  pc : PC
  deriving DecidableEq, Repr

/-- Pointwise frame-stack join (bottom-indexed, shorter depth wins). -/
def joinFrames (s t : List PerVarFrame) : List PerVarFrame :=
  ((s.reverse.zip t.reverse).map (fun p => p.1.orOp p.2)).reverse

/-- `AState.__or__`: join only at equal PCs (`ValueError` otherwise). -/
def AState.orOp (a b : AState) : Except String AState :=
  if a.pc ≠ b.pc then .error "ValueError"
  else .ok { frames := joinFrames a.frames b.frames, pc := a.pc }

/-- `StateSet`: the per-PC abstract-state map plus the dirty set
(`needswork`, embedded in insertion order). -/
structure StateSet where
  perInst : List (PC × AState)
  needswork : List PC
  deriving DecidableEq, Repr

/-- `per_inst[pc]`. -/
def lookupPI : List (PC × AState) → PC → Option AState
  | [], _ => none
  | (pc', st) :: rest, pc => if pc' = pc then some st else lookupPI rest pc

/-- `per_inst[pc] = st`. -/
def setPI : List (PC × AState) → PC → AState → List (PC × AState)
  | [], pc, st => [(pc, st)]
  | (pc', st') :: rest, pc, st =>
    if pc' = pc then (pc, st) :: rest else (pc', st') :: setPI rest pc st

/-- Set insertion (`needswork.add(pc)`), insertion order. -/
def addPC (l : List PC) (pc : PC) : List PC :=
  if l.contains pc then l else l ++ [pc]

/-- A Python dict comprehension `{i: f(xs[i]) for i in range(len(xs))}`
(and `{i: args[i] for i in range(n)}`): consecutive keys from `start`. -/
def numberFrom {α : Type} (start : Nat) : List α → List (Nat × α)
  | [] => []
  | x :: xs => (start, x) :: numberFrom (start + 1) xs

/-- `StateSet.__ior__`: join the candidate into the stored state at its
PC; store and mark dirty on first visit or strict increase. -/
def StateSet.ior (sts : StateSet) (astate : AState) : Except String StateSet := do
  let pc := astate.pc
  match lookupPI sts.perInst pc with
  | some old =>
    let joined ← old.orOp astate
    if joined ≠ old then
      pure { perInst := setPI sts.perInst pc joined, needswork := addPC sts.needswork pc }
    else pure sts
  | none =>
    pure { perInst := sts.perInst ++ [(pc, astate)], needswork := addPC sts.needswork pc }

/-- A yield of the abstract `step`: a successor state or a terminal
outcome string. -/
abbrev AYield := Sum AState String

/-- `step(state, bc)` from `src/group30/abstract_interpreter.py`: the
collected yields of the generator, `Except.error` when the generator
raises (asserts, `NotImplementedError`, bound-arithmetic `ValueError`,
out-of-range PC). `bcK` is `bc.K`, the constant set for widening. -/
def astep (prog : Program) (bcK : List Int) (state : AState) : Except String (List AYield) :=
  match bcLookup prog state.pc with
  | none => .error "IndexError"
  | some opr =>
    let pc := state.pc
    match opr with
    | .getField f _ =>
      if f = "$assertionsDisabled:Z" then
        match state.frames with
        | [] => .error "IndexError"
        | frame :: restF =>
          let absVal := AbstractValue.int_interval { lower := .num 0, upper := .num 0 }
          .ok [.inl ⟨{ frame with stack := absVal :: frame.stack } :: restF, pc.add 1⟩]
      else .error "NotImplementedError"
    | .goto t =>
      .ok [.inl ⟨state.frames, pc.setOff t⟩]
    | .newObj c =>
      if c = "java/lang/AssertionError" then .ok [.inr "assertion error"] else .ok []
    | .ifz c t =>
      match state.frames with
      | [] => .error "IndexError"
      | frame :: restF =>
        match frame.stack with
        | [] => .ok []
        | v :: newStackItems =>
          let feas : Bool × Bool :=
            if v.type ≠ .int then (true, true)
            else
              let itv := v.interval
              match c with
              | .eq => (itv.containsE (.num 0),
                        itv.lower ≠ .num 0 ∨ itv.upper ≠ .num 0)
              | .ne => (itv.lower ≠ .num 0 ∨ itv.upper ≠ .num 0,
                        itv.containsE (.num 0))
              | .lt => (EInt.blt itv.lower (.num 0), EInt.ble (.num 0) itv.upper)
              | .ge => (EInt.ble (.num 0) itv.upper, EInt.blt itv.lower (.num 0))
              | .gt => (EInt.blt (.num 0) itv.upper, EInt.ble itv.lower (.num 0))
              | .le => (EInt.ble itv.lower (.num 0), EInt.blt (.num 0) itv.upper)
          let newFrames := ({ locals := frame.locals, stack := newStackItems } : PerVarFrame) :: restF
          .ok ((if feas.1 then [.inl ⟨newFrames, pc.setOff t⟩] else []) ++
               (if feas.2 then [.inl ⟨newFrames, pc.add 1⟩] else []))
    | .ifCmp c t =>
      match state.frames with
      | [] => .error "IndexError"
      | frame :: restF =>
        match frame.stack with
        | v2 :: v1 :: newStackItems =>
          let feas : Bool × Bool :=
            if v1.type ≠ .int ∨ v2.type ≠ .int then (true, true)
            else
              let i1 := v1.interval
              let i2 := v2.interval
              let allEq : Bool :=
                i1.lower = i1.upper ∧ i1.upper = i2.lower ∧ i2.lower = i2.upper
              match c with
              | .eq => (!(i1.andOp i2).isEmpty, !allEq)
              | .ne => (!allEq, !(i1.andOp i2).isEmpty)
              | .lt => (EInt.blt i1.lower i2.upper, EInt.ble i2.lower i1.upper)
              | .ge => (EInt.ble i2.lower i1.upper, EInt.blt i1.lower i2.upper)
              | .gt => (EInt.blt i2.lower i1.upper, EInt.ble i1.lower i2.upper)
              | .le => (EInt.ble i1.lower i2.upper, EInt.blt i2.lower i1.upper)
          let newFrames := ({ locals := frame.locals, stack := newStackItems } : PerVarFrame) :: restF
          .ok ((if feas.1 then [.inl ⟨newFrames, pc.setOff t⟩] else []) ++
               (if feas.2 then [.inl ⟨newFrames, pc.add 1⟩] else []))
        | _ => .ok []
    | .arrayLength => .ok []
    | .dup _ =>
      match state.frames with
      | [] => .error "IndexError"
      | frame :: restF =>
        match frame.stack with
        | [] => .ok []
        | v :: _ =>
          .ok [.inl ⟨{ frame with stack := v :: frame.stack } :: restF, pc.add 1⟩]
    | .push v =>
      match state.frames with
      | [] => .error "IndexError"
      | frame :: restF =>
        if v.type = .int then
          match v.value.pyNum with
          | some i =>
            let absVal : AbstractValue :=
              ⟨.int, { lower := .num i, upper := .num i, K := sortK bcK }⟩
            .ok [.inl ⟨{ frame with stack := absVal :: frame.stack } :: restF, pc.add 1⟩]
          | none => .error "TypeError"
        else
          let absVal := AbstractValue.from_concrete v
          .ok [.inl ⟨{ frame with stack := absVal :: frame.stack } :: restF, pc.add 1⟩]
    | .store t idx =>
      if t = .int then
        match state.frames with
        | [] => .error "IndexError"
        | frame :: restF =>
          match frame.stack with
          | [] => .ok []
          | v :: newStackItems =>
            if v.type = .int then
              .ok [.inl ⟨({ locals := setA frame.locals idx v,
                            stack := newStackItems } : PerVarFrame) :: restF, pc.add 1⟩]
            else .error "AssertionError"
      else if t = .reference then
        match state.frames with
        | [] => .error "IndexError"
        | frame :: restF =>
          match frame.stack with
          | [] => .ok []
          | v :: newStackItems =>
            if v.type = .reference then
              .ok [.inl ⟨({ locals := setA frame.locals idx v,
                            stack := newStackItems } : PerVarFrame) :: restF, pc.add 1⟩]
            else .error "AssertionError"
      else .ok [.inr "ERROR: Unhandled opcode"]
    | .arrayStore t =>
      if t = .int then .ok [] else .ok [.inr "ERROR: Unhandled opcode"]
    | .arrayLoad _ => .ok []
    | .load t i =>
      if t = .int ∨ t = .reference then
        match state.frames with
        | [] => .error "IndexError"
        | frame :: restF =>
          match lookupA frame.locals i with
          | none => .ok []
          | some v =>
            .ok [.inl ⟨{ frame with stack := v :: frame.stack } :: restF, pc.add 1⟩]
      else .ok [.inr "ERROR: Unhandled opcode"]
    | .binary t op =>
      if t = .int then
        match state.frames with
        | [] => .error "IndexError"
        | frame :: restF =>
          match frame.stack with
          | v2 :: v1 :: restStack =>
            match op with
            | .div =>
              let dbz : List AYield :=
                if v2.interval.containsE (.num 0) then [.inr "divide by zero"] else []
              if v2.interval.lower ≠ .num 0 ∨ v2.interval.upper ≠ .num 0 then
                if v2.interval.lower = v2.interval.upper ∧ v2.interval.lower ≠ .num 0 then
                  let divisor := v2.interval.lower
                  match EInt.fdiv v1.interval.lower divisor,
                        EInt.fdiv v1.interval.upper divisor with
                  | some lo, some hi =>
                    let result := AbstractValue.int_interval { lower := lo, upper := hi }
                    .ok (dbz ++ [.inl ⟨({ locals := frame.locals,
                                          stack := result :: restStack } : PerVarFrame) :: restF,
                                       pc.add 1⟩])
                  | _, _ => .error "ZeroDivisionError"
                else
                  let result := AbstractValue.int_interval
                    { lower := .num (-maxsize), upper := .num maxsize }
                  .ok (dbz ++ [.inl ⟨({ locals := frame.locals,
                                        stack := result :: restStack } : PerVarFrame) :: restF,
                                     pc.add 1⟩])
              else .ok dbz
            | .sub =>
              match Arithmetic.sub v1.interval v2.interval with
              | none => .error "ValueError"
              | some itv =>
                .ok [.inl ⟨({ locals := frame.locals,
                              stack := AbstractValue.int_interval itv :: restStack } :
                            PerVarFrame) :: restF, pc.add 1⟩]
            | .add =>
              match Arithmetic.add v1.interval v2.interval with
              | none => .error "ValueError"
              | some itv =>
                .ok [.inl ⟨({ locals := frame.locals,
                              stack := AbstractValue.int_interval itv :: restStack } :
                            PerVarFrame) :: restF, pc.add 1⟩]
            | .mul =>
              let itv : Interval :=
                if !v1.interval.isEmpty && !v2.interval.isEmpty then
                  let p1 := EInt.mul v1.interval.lower v2.interval.lower
                  let p2 := EInt.mul v1.interval.lower v2.interval.upper
                  let p3 := EInt.mul v1.interval.upper v2.interval.lower
                  let p4 := EInt.mul v1.interval.upper v2.interval.upper
                  { lower := EInt.emin (EInt.emin p1 p2) (EInt.emin p3 p4),
                    upper := EInt.emax (EInt.emax p1 p2) (EInt.emax p3 p4) }
                else Interval.empty
              .ok [.inl ⟨({ locals := frame.locals,
                            stack := AbstractValue.int_interval itv :: restStack } :
                          PerVarFrame) :: restF, pc.add 1⟩]
            | .rem =>
              if !v1.interval.isEmpty && !v2.interval.isEmpty then
                match v2.interval.lower, v2.interval.upper with
                | .num lo, .num hi =>
                  let m := max (Int.natAbs lo) (Int.natAbs hi)
                  let itv : Interval :=
                    { lower := .num (-(m : Int) + 1), upper := .num ((m : Int) - 1) }
                  .ok [.inl ⟨({ locals := frame.locals,
                                stack := AbstractValue.int_interval itv :: restStack } :
                              PerVarFrame) :: restF, pc.add 1⟩]
                | _, _ => .error "TypeError"
              else
                .ok [.inl ⟨({ locals := frame.locals,
                              stack := AbstractValue.int_interval Interval.empty :: restStack } :
                            PerVarFrame) :: restF, pc.add 1⟩]
          | _ => .ok []
      else .ok [.inr "ERROR: Unhandled opcode"]
    | .cast _ _ =>
      match state.frames with
      | [] => .error "IndexError"
      | frame :: _ =>
        match frame.stack with
        | [] => .ok []
        | _ :: _ => .ok [.inl ⟨state.frames, pc.add 1⟩]
    | .incr idx n =>
      match state.frames with
      | [] => .error "IndexError"
      | frame :: restF =>
        match lookupA frame.locals idx with
        | none => .ok []
        | some v =>
          match Arithmetic.add v.interval { lower := .num n, upper := .num n } with
          | none => .error "ValueError"
          | some itv =>
            .ok [.inl ⟨({ locals := setA frame.locals idx (AbstractValue.int_interval itv),
                          stack := frame.stack } : PerVarFrame) :: restF, pc.add 1⟩]
    | .ret ty =>
      match ty with
      | some .int | some .reference =>
        match state.frames with
        | [] => .error "IndexError"
        | frame :: restF =>
          match frame.stack with
          | [] => .ok []
          | v1 :: _ =>
            match restF with
            | [] => .ok [.inr "ok"]
            | caller :: below =>
              .ok [.inl ⟨({ locals := caller.locals,
                            stack := v1 :: caller.stack } : PerVarFrame) :: below, state.pc⟩]
      | none =>
        match state.frames with
        | [] => .ok [.inr "ok"]
        | _ :: restF =>
          match restF with
          | [] => .ok [.inr "ok"]
          | _ => .ok [.inl ⟨restF, state.pc⟩]
      | some _ => .ok [.inr "ERROR: Unhandled opcode"]
    | .newArray t _ =>
      if t = .int then .ok [] else .ok [.inr "ERROR: Unhandled opcode"]
    | .invokeSpecial isAE =>
      if isAE then .ok [.inr "assertion error"] else .error "AssertionError"
    | .invokeStatic callee n =>
      match state.frames with
      | [] => .error "IndexError"
      | frame :: restF =>
        if frame.stack.length < n then .ok []
        else
          let argsPy := (frame.stack.take n).reverse
          let newCaller : PerVarFrame :=
            { locals := frame.locals, stack := frame.stack.drop n }
          let newCallee : PerVarFrame :=
            { locals := numberFrom 0 argsPy, stack := [] }
          .ok [.inl ⟨newCallee :: newCaller :: restF, ⟨callee, 0⟩⟩]
    | _ => .ok [.inr "ERROR: Unhandled opcode"]

/-- The `initial_input_intervals` list computed at the top of
`abstract_interpretation`, before any analysis: the same per-type rule
as `AbstractValue.from_concrete_w_K`. -/
def initialInputIntervals (inputTypes : List JType) (K : List Int) : List Interval :=
  inputTypes.map (fun t =>
    if t = .int then
      if K ≠ [] then
        { lower := .num (kMin K), upper := .num (kMax K), K := sortK K }
      else
        { lower := .num (-maxsize), upper := .num maxsize }
    else Interval.empty)

/-- `AState.initialstate_from_method`: locals from the parameters, empty
operand stack, PC `(method, 0)`, the single state dirty. -/
def initialstate_from_method (methodid : MethodId) (inputTypes : List JType)
    (K : List Int) : StateSet :=
  let initialLocals : ALocals :=
    numberFrom 0 (inputTypes.map (AbstractValue.from_concrete_w_K K))
  let initialPC : PC := ⟨methodid, 0⟩
  let initialState : AState := ⟨[⟨initialLocals, []⟩], initialPC⟩
  { perInst := [(initialPC, initialState)], needswork := [initialPC] }

/-- The mutable loop state of `abstract_interpretation`'s fixed-point
iteration. -/
structure LoopSt where
  stateSet : StateSet
  final : List String
  hasSelfLoop : Bool
  deriving DecidableEq, Repr

/-- Set insertion for the outcome set `final`. -/
def addStr (l : List String) (s : String) : List String :=
  if l.contains s then l else l ++ [s]

/-- Processing one yield of `manystep` inside the driver loop: terminal
strings go to `final`; successor states update the self-loop flag (PC
already being processed or already stored) and are merged with `|=`. -/
def processYield (processingPcs : List PC) (st : LoopSt) (y : AYield) :
    Except String LoopSt :=
  match y with
  | .inr s => .ok { st with final := addStr st.final s }
  | .inl as => do
    let flag := st.hasSelfLoop || processingPcs.contains as.pc ||
      (lookupPI st.stateSet.perInst as.pc).isSome
    let newSet ← st.stateSet.ior as
    .ok { stateSet := newSet, final := st.final, hasSelfLoop := flag }

/-- One pass of the driver loop: snapshot and clear `needswork`
(`per_instruction`), step every dirty PC against its current stored
state, process the yields in order. -/
def runPass (prog : Program) (bcK : List Int) (st : LoopSt) : Except String LoopSt :=
  let work := st.stateSet.needswork
  let st0 : LoopSt := { st with stateSet := { st.stateSet with needswork := [] } }
  work.foldlM (fun acc pc =>
    match lookupPI acc.stateSet.perInst pc with
    | none => .error "KeyError"
    | some astate => do
      let ys ← astep prog bcK astate
      ys.foldlM (processYield work) acc) st0

/-- The `for i in range(MAX_STEPS)` loop: run passes until the dirty set
empties (`break`) or the fuel runs out (the `for`-`else`: `hit_max`). -/
def loopIter (prog : Program) (bcK : List Int) :
    Nat → LoopSt → Except String (LoopSt × Bool)
  | 0, st => .ok (st, true)
  | n + 1, st =>
    if st.stateSet.needswork = [] then .ok (st, false)
    else do
      let st' ← runPass prog bcK st
      loopIter prog bcK n st'

/-- `MAX_STEPS`. -/
def MAX_STEPS : Nat := 100

/-- `abstract_interpretation(suite, methodid, input_types, K)`: initial
input intervals, fixed-point loop with the `"*"`/self-loop outcome
classification, returning `(final, initial_input_intervals)`. -/
def abstract_interpretation (prog : Program) (methodid : MethodId)
    (inputTypes : List JType) (K : List Int) :
    Except String (List String × List Interval) := do
  let initIvs := initialInputIntervals inputTypes K
  let st0 : LoopSt := ⟨initialstate_from_method methodid inputTypes K, [], false⟩
  let r ← loopIter prog K MAX_STEPS st0
  let st := r.1
  let hitMax := r.2
  let final1 := if hitMax then addStr st.final "*" else st.final
  let final2 :=
    if !hitMax && final1.isEmpty && st.hasSelfLoop then addStr final1 "*" else final1
  pure (final2, initIvs)

end AbsInt

namespace Claims

/-- A one-opcode single-method program for exercising individual steps. -/
def progOf (op : Opcode) : Program := fun _ => [op]

/-- Concrete state at a `Binary` opcode: `v1` below, `v2` on top. -/
def binState (v1 v2 : Int) : Interp.State :=
  { heap := [],
    frames := [{ locals := [], stack := [JValue.int v2, JValue.int v1], pc := ⟨"m", 0⟩ }] }

/-- Concrete state at an array opcode: the heap holds one
`int[3] = [10, 20, 30]` at index 0; the operand stack holds the index on
top of the array reference. -/
def arrLoadState (idx : Int) (r : Option Nat) : Interp.State :=
  { heap := [⟨.array .int, .pList [.pInt 10, .pInt 20, .pInt 30]⟩],
    frames := [{ locals := [],
                 stack := [JValue.int idx, ⟨.reference, .pRef r⟩],
                 pc := ⟨"m", 0⟩ }] }

/-- Concrete state with a single Int `v` on the operand stack. -/
def castState (v : Int) : Interp.State :=
  { heap := [], frames := [{ locals := [], stack := [JValue.int v], pc := ⟨"m", 0⟩ }] }

/-- Abstract state with an empty operand stack in its only frame. -/
def underflowAState : AbsInt.AState := ⟨[⟨[], []⟩], ⟨"m", 0⟩⟩

/-- Abstract state at `Binary(Int, Div)`: `v1` beneath `v2` (top). -/
def divAState (v1 v2 : Interval) : AbsInt.AState :=
  ⟨[⟨[], [⟨.int, v2⟩, ⟨.int, v1⟩]⟩], ⟨"m", 0⟩⟩

/-- Concrete state with a single Boolean value on the operand stack. -/
def ifzBoolState (b : Bool) : Interp.State :=
  { heap := [],
    frames := [{ locals := [], stack := [⟨.boolean, .pBool b⟩], pc := ⟨"m", 0⟩ }] }

/-- The widened sequence along a chain: `y₀ = x₀`,
`y_{n+1} = widening(y_n, x_{n+1})`. -/
def widenSeq (x : Nat → Interval) : Nat → Interval
  | 0 => x 0
  | n + 1 => (widenSeq x n).widening (x (n + 1))

/-- How many indices `i < n` have `y_{i+1} ≠ y_i` in the widened
sequence. -/
def widenChanges (x : Nat → Interval) : Nat → Nat
  | 0 => 0
  | n + 1 => widenChanges x n + (if widenSeq x (n + 1) ≠ widenSeq x n then 1 else 0)

/-- Elements of K at or below a lower bound. -/
def rankLo (K0 : List Int) (lo : EInt) : Nat :=
  K0.countP (fun k => EInt.ble (.num k) lo)

/-- Elements of K at or above an upper bound. -/
def rankHi (K0 : List Int) (hi : EInt) : Nat :=
  K0.countP (fun k => EInt.ble hi (.num k))

/-- The widening measure: it shrinks whenever a widened bound moves. -/
def mu (K0 : List Int) (y : Interval) : Nat := rankLo K0 y.lower + rankHi K0 y.upper

/-- The chain refuting C5's stabilization index: `x_n = [0, n+1]` with
`K = {0, 10}`. -/
def chain5 (n : Nat) : Interval :=
  { lower := .num 0, upper := .num ((n : Int) + 1), K := [0, 10] }

/-- A simple strictly ascending chain for the C5 witness:
`x_n = [-n, n]` with `K = {0}`. -/
def chainW (n : Nat) : Interval :=
  { lower := .num (-(n : Int)), upper := .num (n : Int), K := [0] }

/-- The `[offset-start, offset-end]` range of a CFG basic block, as
`CFG.resolve_overlapping_blocks` (src/group30/CFG.py) sees it; `stop`
is the inclusive `offset_end`. The other node fields (edges, terminator
opcode) do not affect ranges. -/
structure BlockRange where
  start : Nat
  stop : Nat
  deriving DecidableEq, Repr

/-- `CFG.resolve_overlapping_blocks` acting on the block list sorted by
`offset_start` (block starts are distinct since `nodes` is keyed by
them): each adjacent overlapping pair truncates the earlier block to end
just before the later one starts. The edge rewiring of the source does
not change ranges and is not modelled here. -/
def resolveOverlaps : List BlockRange → List BlockRange
  | [] => []
  | [b] => [b]
  | b :: b2 :: rest =>
    (if b2.start ≤ b.stop then { b with stop := b2.start - 1 } else b) ::
      resolveOverlaps (b2 :: rest)

/-- C1 (code bug): at `Binary(Int, Rem)` with `v1 = 1` beneath and
`v2 = 0` on top, the concrete step evaluates Python `1 % 0` without a
zero guard and so raises an uncaught `ZeroDivisionError` — a fatal crash
— instead of the terminal `"divide by zero"` the spec promises; the
`Div` case on the same operands does return the terminal. -/
theorem c1_rem_zero_is_fatal_not_terminal :
    Interp.step (progOf (.binary .int .rem)) (binState 1 0) =
      .fatal "ZeroDivisionError" ∧
    Interp.step (progOf (.binary .int .div)) (binState 1 0) =
      .term "divide by zero" ∧
    (Interp.StepRes.fatal "ZeroDivisionError" ≠ .term "divide by zero") :=
  ⟨rfl, rfl, fun h => Interp.StepRes.noConfusion h⟩

/-- C2 (code bug): `ArrayLoad(Int)` with index `-1` on a length-3 array
silently pushes the LAST element (Python wraparound `arr[-1] = 30`)
instead of returning `"out of bounds"`, and with a null reference it
evaluates `state.heap[None]` before any null check and so dies with an
uncaught `KeyError` instead of returning `"null pointer"`. -/
theorem c2_arrayload_guards_missing :
    Interp.step (progOf (.arrayLoad .int)) (arrLoadState (-1) (some 0)) =
      .next { heap := [⟨.array .int, .pList [.pInt 10, .pInt 20, .pInt 30]⟩],
              frames := [{ locals := [], stack := [⟨.int, .pInt 30⟩], pc := ⟨"m", 1⟩ }] } ∧
    Interp.step (progOf (.arrayLoad .int)) (arrLoadState 0 none) = .fatal "KeyError" ∧
    (∀ s, Interp.step (progOf (.arrayLoad .int)) (arrLoadState (-1) (some 0)) ≠ .term s) := by
  refine ⟨rfl, rfl, fun s h => ?_⟩
  rw [show Interp.step (progOf (.arrayLoad .int)) (arrLoadState (-1) (some 0)) =
        .next { heap := [⟨.array .int, .pList [.pInt 10, .pInt 20, .pInt 30]⟩],
                frames := [{ locals := [], stack := [⟨.int, .pInt 30⟩],
                             pc := ⟨"m", 1⟩ }] } from rfl] at h
  exact Interp.StepRes.noConfusion h

/-- C4 (code bug): with the constructor defaults `use_widening = True`
and `K = ∅` — exactly what `Interval.abstract({1})` builds — the
analyzer's join `x | x` widens both bounds away and returns
`[-∞, ∞] ≠ x`: join is not idempotent, contradicting both the claim and
the repository's own hypothesis test
`test_interval_abstraction_distributes` instantiated at `xs = ys = {1}`. -/
theorem c4_default_join_not_idempotent :
    Interval.orOp { lower := .num 1, upper := .num 1 } { lower := .num 1, upper := .num 1 } =
      Interval.universal ∧
    Interval.universal ≠ ({ lower := .num 1, upper := .num 1 } : Interval) :=
  ⟨by decide, by decide⟩

/-- C9 counterexample: `Cast(Int→Short)` at `v = 40000` pushes 40000
unchanged, while the claimed 16-bit two's-complement round-trip value
`((v + 2^15) mod 2^16) - 2^15` is `-25536`. -/
theorem c9_cast_counterexample :
    Interp.step (progOf (.cast .int .short)) (castState 40000) =
      .next { heap := [],
              frames := [{ locals := [], stack := [JValue.int 40000], pc := ⟨"m", 1⟩ }] } ∧
    ((40000 + 2 ^ 15) % 2 ^ 16 - 2 ^ 15 : Int) = -25536 ∧
    (40000 : Int) ≠ -25536 :=
  ⟨rfl, by decide, by decide⟩

/-- C9 (corrected): executing `Cast(_, Short)` pops the top value and
pushes it back unchanged — the `i2s` case is a no-op in this
interpreter, no 16-bit truncation or sign extension is applied — and the
frame's PC advances by one. -/
theorem c9_cast_is_identity (prog : Program) (heap : List JValue)
    (frame : Interp.Frame) (restF : List Interp.Frame) (src : JType)
    (v : JValue) (rest : List JValue)
    (hbc : bcLookup prog frame.pc = some (.cast src .short))
    (hstack : frame.stack = v :: rest) :
    Interp.step prog ⟨heap, frame :: restF⟩ =
      .next ⟨heap, { frame with stack := v :: rest, pc := frame.pc.add 1 } :: restF⟩ := by
  simp [Interp.step, hbc, hstack]

/-- Witness for C9: the identity behaviour at the concrete state with
40000 on the stack. -/
theorem c9_cast_is_identity_witness :
    bcLookup (progOf (.cast .int .short)) (⟨"m", 0⟩ : PC) = some (.cast .int .short) ∧
    Interp.step (progOf (.cast .int .short)) (castState 40000) =
      .next { heap := [],
              frames := [{ locals := [], stack := [JValue.int 40000], pc := ⟨"m", 1⟩ }] } :=
  ⟨rfl, c9_cast_is_identity (progOf (.cast .int .short)) []
      ⟨[], [JValue.int 40000], ⟨"m", 0⟩⟩ [] .int (JValue.int 40000) [] rfl rfl⟩

/-- C8 counterexample: the abstract step at `Binary(Int, Div)` with an
empty operand stack returns successfully with ZERO successors and no
outcome — it silently continues instead of propagating a fatal error. -/
theorem c8_abstract_underflow_counterexample :
    AbsInt.astep (progOf (.binary .int .div)) [] underflowAState = .ok [] ∧
    (∀ e, AbsInt.astep (progOf (.binary .int .div)) [] underflowAState ≠ .error e) := by
  refine ⟨rfl, fun e h => ?_⟩
  rw [show AbsInt.astep (progOf (.binary .int .div)) [] underflowAState =
        .ok [] from rfl] at h
  exact Except.noConfusion h

/-- C3 counterexample: dividing `v1 = [0,0]` by the non-singleton
divisor `v2 = [1,2]` emits exactly one numeric successor whose result
interval is the FINITE `[-sys.maxsize, sys.maxsize]`
(= `[-(2^63-1), 2^63-1]`), not the claimed `⊤ = [-∞, +∞]`. -/
theorem c3_div_top_counterexample :
    AbsInt.astep (progOf (.binary .int .div)) []
      (divAState { lower := .num 0, upper := .num 0 } { lower := .num 1, upper := .num 2 }) =
      .ok [.inl ⟨[⟨[], [⟨.int, { lower := .num (-AbsInt.maxsize),
                                 upper := .num AbsInt.maxsize }⟩]⟩], ⟨"m", 1⟩⟩] ∧
    ({ lower := .num (-AbsInt.maxsize), upper := .num AbsInt.maxsize } : Interval) ≠
      Interval.universal :=
  ⟨rfl, by decide⟩

/-- C10 (confirmed): executing `Ifz(cond, target)` when the popped
operand has Boolean type succeeds: `False` is coerced to the integer 0
and `True` to 1 (`0 if v.value == False else 1`), and the
jump/fall-through decision compares that integer against zero exactly as
for an Int operand. -/
theorem c10_ifz_boolean_coercion (prog : Program) (heap : List JValue)
    (frame : Interp.Frame) (restF : List Interp.Frame) (c : Cond) (t : Nat)
    (b : Bool) (rest : List JValue)
    (hbc : bcLookup prog frame.pc = some (.ifz c t))
    (hstack : frame.stack = ⟨.boolean, .pBool b⟩ :: rest) :
    Interp.step prog ⟨heap, frame :: restF⟩ =
      .next ⟨heap,
        { frame with
          stack := rest,
          pc := if c.holds (if b then 1 else 0) 0 then frame.pc.setOff t
                else frame.pc.add 1 } :: restF⟩ := by
  cases b <;> simp [Interp.step, hbc, hstack, Payload.pyEq, Payload.pyNum]

/-- Witness for C10: `Ifz(eq, 5)` on a `False` Boolean jumps to 5 with
the operand popped. -/
theorem c10_ifz_boolean_coercion_witness :
    bcLookup (progOf (.ifz .eq 5)) (⟨"m", 0⟩ : PC) = some (.ifz .eq 5) ∧
    Interp.step (progOf (.ifz .eq 5)) (ifzBoolState false) =
      .next { heap := [], frames := [{ locals := [], stack := [], pc := ⟨"m", 5⟩ }] } :=
  ⟨rfl, c10_ifz_boolean_coercion (progOf (.ifz .eq 5)) []
    ⟨[], [⟨.boolean, .pBool false⟩], ⟨"m", 0⟩⟩ [] .eq 5 false [] rfl rfl⟩

/-- Division of bounds by a non-zero divisor bound never raises. -/
theorem fdivTotal (a b : EInt) (hb : b ≠ EInt.num 0) : ∃ c, EInt.fdiv a b = some c := by
  cases a <;> cases b <;> simp only [EInt.fdiv] <;>
    first
      | exact ⟨_, rfl⟩
      | (split_ifs <;> simp_all)

/-- C3 (corrected): for an abstract state at `Binary(Int, Div)` with
divisor `v2` on top of `v1`: the terminal `"divide by zero"` is yielded
iff `0 ∈ v2`; when `v2 = [0,0]` the terminal is the only yield (no
numeric successor); when `v2` is a finite singleton `[d, d]`, `d ≠ 0`,
exactly one numeric successor is yielded whose result interval is
`[⌊lo/d⌋, ⌊hi/d⌋]` for finite `v1 = [lo, hi]`; and when `v2`'s bounds
differ the single numeric successor carries the FINITE interval
`[-sys.maxsize, sys.maxsize]` — not the claimed `⊤ = [-∞, +∞]`. -/
theorem c3_div_abstract_corrected (prog : Program) (bcK : List Int)
    (frame : AbsInt.PerVarFrame) (restF : List AbsInt.PerVarFrame) (pc0 : PC)
    (t1 t2 : JType) (v1 v2 : Interval) (rest : List AbsInt.AbstractValue)
    (hbc : bcLookup prog pc0 = some (.binary .int .div))
    (hstack : frame.stack = ⟨t2, v2⟩ :: ⟨t1, v1⟩ :: rest) :
    (∃ l, AbsInt.astep prog bcK ⟨frame :: restF, pc0⟩ = .ok l ∧
      ((Sum.inr "divide by zero") ∈ l ↔ v2.containsE (.num 0) = true)) ∧
    (v2.lower = .num 0 ∧ v2.upper = .num 0 →
      AbsInt.astep prog bcK ⟨frame :: restF, pc0⟩ = .ok [.inr "divide by zero"]) ∧
    (∀ d lo hi, v2.lower = .num d → v2.upper = .num d → d ≠ 0 →
      v1.lower = .num lo → v1.upper = .num hi →
      AbsInt.astep prog bcK ⟨frame :: restF, pc0⟩ =
        .ok [.inl ⟨⟨frame.locals,
          (⟨.int, { lower := .num (Int.fdiv lo d), upper := .num (Int.fdiv hi d) }⟩ :
            AbsInt.AbstractValue) :: rest⟩ :: restF, pc0.add 1⟩]) ∧
    (v2.lower ≠ v2.upper →
      AbsInt.astep prog bcK ⟨frame :: restF, pc0⟩ =
        .ok ((if v2.containsE (.num 0) then [.inr "divide by zero"] else []) ++
          [.inl ⟨⟨frame.locals,
            (⟨.int, { lower := .num (-AbsInt.maxsize), upper := .num AbsInt.maxsize }⟩ :
              AbsInt.AbstractValue) :: rest⟩ :: restF, pc0.add 1⟩])) := by
  obtain ⟨lo2, hi2, K2, w2⟩ := v2
  obtain ⟨lo1, hi1, K1, w1⟩ := v1
  refine ⟨?_, ?_, ?_, ?_⟩
  · by_cases hz : lo2 = EInt.num 0 ∧ hi2 = EInt.num 0
    · obtain ⟨e1, e2⟩ := hz
      subst e1; subst e2
      refine ⟨[.inr "divide by zero"], ?_, ?_⟩
      · simp [AbsInt.astep, hbc, hstack]
        rfl
      · rw [show Interval.containsE ⟨.num 0, .num 0, K2, w2⟩ (.num 0) = true from rfl]
        simp
    · have hcond : (lo2 ≠ EInt.num 0 ∨ hi2 ≠ EInt.num 0) := by tauto
      by_cases hsing : lo2 = hi2 ∧ lo2 ≠ EInt.num 0
      · obtain ⟨clo, hclo⟩ := fdivTotal lo1 lo2 hsing.2
        obtain ⟨chi, hchi⟩ := fdivTotal hi1 lo2 hsing.2
        refine ⟨(if Interval.containsE ⟨lo2, hi2, K2, w2⟩ (.num 0) then
            [Sum.inr "divide by zero"] else []) ++
            [.inl ⟨⟨frame.locals,
              (⟨.int, { lower := clo, upper := chi }⟩ : AbsInt.AbstractValue) :: rest⟩ ::
              restF, pc0.add 1⟩], ?_, ?_⟩
        · simp only [AbsInt.astep, hbc, hstack]
          rw [if_pos hcond, if_pos hsing, hclo, hchi]
          simp [AbsInt.AbstractValue.int_interval]
        · by_cases hc : Interval.containsE ⟨lo2, hi2, K2, w2⟩ (.num 0) = true <;>
            simp [hc]
      · refine ⟨(if Interval.containsE ⟨lo2, hi2, K2, w2⟩ (.num 0) then
            [Sum.inr "divide by zero"] else []) ++
            [.inl ⟨⟨frame.locals,
              (⟨.int, { lower := .num (-AbsInt.maxsize), upper := .num AbsInt.maxsize }⟩ :
                AbsInt.AbstractValue) :: rest⟩ :: restF, pc0.add 1⟩], ?_, ?_⟩
        · simp only [AbsInt.astep, hbc, hstack]
          rw [if_pos hcond, if_neg hsing]
          simp [AbsInt.AbstractValue.int_interval]
        · by_cases hc : Interval.containsE ⟨lo2, hi2, K2, w2⟩ (.num 0) = true <;>
            simp [hc]
  · rintro ⟨h1, h2⟩
    subst h1; subst h2
    simp [AbsInt.astep, hbc, hstack]
    rfl
  · intro d lo hi h2lo h2hi hd h1lo h1hi
    subst h2lo; subst h2hi; subst h1lo; subst h1hi
    have hcon : Interval.containsE ⟨.num d, .num d, K2, w2⟩ (.num 0) = false := by
      simp only [Interval.containsE, Interval.isEmpty, EInt.blt, EInt.ble]
      by_cases h0 : d ≤ 0 <;> by_cases h0' : (0 : Int) ≤ d <;> simp_all; omega
    have hdn : EInt.num d ≠ EInt.num 0 := by simp [hd]
    have hcondd : (EInt.num d ≠ EInt.num 0 ∨ EInt.num d ≠ EInt.num 0) := Or.inl hdn
    have hsingd : (EInt.num d = EInt.num d ∧ EInt.num d ≠ EInt.num 0) := ⟨rfl, hdn⟩
    simp only [AbsInt.astep, hbc, hstack]
    simp [hdn, EInt.fdiv, hd, hcon, AbsInt.AbstractValue.int_interval]
  · intro hne
    have hcond : (lo2 ≠ EInt.num 0 ∨ hi2 ≠ EInt.num 0) := by
      by_cases h1 : lo2 = EInt.num 0
      · subst h1
        exact Or.inr (fun h2 => hne h2.symm)
      · exact Or.inl h1
    have hsing : ¬(lo2 = hi2 ∧ lo2 ≠ EInt.num 0) := fun h => hne h.1
    simp only [AbsInt.astep, hbc, hstack]
    rw [if_pos hcond, if_neg hsing]
    simp [AbsInt.AbstractValue.int_interval]

/-- Witness for C3: dividing `v1 = [10, 21]` by the singleton divisor
`[2, 2]` yields exactly the successor with result interval `[5, 10]`. -/
theorem c3_div_abstract_corrected_witness :
    bcLookup (progOf (.binary .int .div)) (⟨"m", 0⟩ : PC) = some (.binary .int .div) ∧
    AbsInt.astep (progOf (.binary .int .div)) []
        (divAState { lower := .num 10, upper := .num 21 } { lower := .num 2, upper := .num 2 }) =
      .ok [.inl ⟨[⟨[], [⟨.int, { lower := .num 5, upper := .num 10 }⟩]⟩], ⟨"m", 1⟩⟩] :=
  ⟨rfl, (c3_div_abstract_corrected (progOf (.binary .int .div)) []
      ⟨[], [⟨.int, { lower := .num 2, upper := .num 2 }⟩,
            ⟨.int, { lower := .num 10, upper := .num 21 }⟩]⟩ [] ⟨"m", 0⟩ .int .int
      { lower := .num 10, upper := .num 21 } { lower := .num 2, upper := .num 2 } []
      rfl rfl).2.2.1 2 10 21 rfl rfl (by decide) rfl rfl⟩

/-- Popping more operands than the stack holds underflows. -/
theorem popN_eq_none_of_lt :
    ∀ (n : Nat) (s : List JValue), s.length < n → Interp.popN n s = none
  | 0, _, h => absurd h (by omega)
  | _ + 1, [], _ => rfl
  | n + 1, v :: rest, h => by
    have hr : rest.length < n := by simp at h; omega
    simp [Interp.popN, popN_eq_none_of_lt n rest hr]

/-- C8 (corrected): on an operand-stack underflow the CONCRETE step
always propagates a fatal error (a Python `IndexError` from `pop`/`peek`
or, for `Return` of an unsupported type, a `NotImplementedError`), never
a terminal outcome; the ABSTRACT step however silently returns with ZERO
successors and no outcome (its `if len(...) < k: return` guards), it
does not propagate a fatal error. -/
theorem c8_underflow_amended :
    (∀ (prog : Program) (heap : List JValue) (frame : Interp.Frame)
        (restF : List Interp.Frame) (op : Opcode),
      bcLookup prog frame.pc = some op →
      frame.stack.length < Interp.operandsNeeded op →
      ∃ msg, Interp.step prog ⟨heap, frame :: restF⟩ = .fatal msg) ∧
    (∀ (prog : Program) (bcK : List Int) (frame : AbsInt.PerVarFrame)
        (restF : List AbsInt.PerVarFrame) (pc0 : PC) (op : Opcode),
      bcLookup prog pc0 = some op →
      frame.stack.length < Interp.operandsNeeded op →
      AbsInt.astep prog bcK ⟨frame :: restF, pc0⟩ = .ok []) := by
  constructor
  · intro prog heap frame restF op hbc hlen
    cases op with
    | push v => simp only [Interp.operandsNeeded] at hlen; omega
    | load t i => simp only [Interp.operandsNeeded] at hlen; omega
    | goto t => simp only [Interp.operandsNeeded] at hlen; omega
    | newObj c => simp only [Interp.operandsNeeded] at hlen; omega
    | incr i a => simp only [Interp.operandsNeeded] at hlen; omega
    | invokeSpecial b => simp only [Interp.operandsNeeded] at hlen; omega
    | getField f s => simp only [Interp.operandsNeeded] at hlen; omega
    | throwOp => simp only [Interp.operandsNeeded] at hlen; omega
    | dup w =>
      rcases hs : frame.stack with _ | ⟨a, r⟩
      · exact ⟨"IndexError", by simp [Interp.step, hbc, hs]⟩
      · rw [hs] at hlen; simp only [Interp.operandsNeeded] at hlen
        simp at hlen
    | ifz c t =>
      rcases hs : frame.stack with _ | ⟨a, r⟩
      · exact ⟨"IndexError", by simp [Interp.step, hbc, hs]⟩
      · rw [hs] at hlen; simp only [Interp.operandsNeeded] at hlen
        simp at hlen
    | cast s t =>
      rcases hs : frame.stack with _ | ⟨a, r⟩
      · exact ⟨"IndexError", by simp [Interp.step, hbc, hs]⟩
      · rw [hs] at hlen; simp only [Interp.operandsNeeded] at hlen
        simp at hlen
    | arrayLength =>
      rcases hs : frame.stack with _ | ⟨a, r⟩
      · exact ⟨"IndexError", by simp [Interp.step, hbc, hs]⟩
      · rw [hs] at hlen; simp only [Interp.operandsNeeded] at hlen
        simp at hlen
    | ifCmp c t =>
      rcases hs : frame.stack with _ | ⟨a, _ | ⟨b, r⟩⟩
      · exact ⟨"IndexError", by simp [Interp.step, hbc, hs]⟩
      · exact ⟨"IndexError", by simp [Interp.step, hbc, hs]⟩
      · rw [hs] at hlen; simp only [Interp.operandsNeeded] at hlen
        simp at hlen; omega
    | binary t op' =>
      by_cases ht : t = .int
      · subst ht
        rcases hs : frame.stack with _ | ⟨a, _ | ⟨b, r⟩⟩
        · exact ⟨"IndexError", by simp [Interp.step, hbc, hs]⟩
        · exact ⟨"IndexError", by simp [Interp.step, hbc, hs]⟩
        · rw [hs] at hlen; simp only [Interp.operandsNeeded] at hlen
          simp at hlen; omega
      · simp only [Interp.operandsNeeded] at hlen
        rw [if_neg (by simp [ht])] at hlen; omega
    | store t i =>
      by_cases ht : t = .int ∨ t = .reference
      · rcases hs : frame.stack with _ | ⟨a, r⟩
        · rcases ht with ht | ht <;> subst ht
          · exact ⟨"IndexError", by simp [Interp.step, hbc, hs]⟩
          · exact ⟨"IndexError", by simp [Interp.step, hbc, hs]⟩
        · rw [hs] at hlen; simp only [Interp.operandsNeeded] at hlen
          simp [ht] at hlen
      · simp only [Interp.operandsNeeded] at hlen
        rw [if_neg ht] at hlen; omega
    | arrayStore t =>
      by_cases ht : t = .int
      · subst ht
        rcases hs : frame.stack with _ | ⟨a, _ | ⟨b, _ | ⟨e, r⟩⟩⟩
        · exact ⟨"IndexError", by simp [Interp.step, hbc, hs]⟩
        · exact ⟨"IndexError", by simp [Interp.step, hbc, hs]⟩
        · exact ⟨"IndexError", by simp [Interp.step, hbc, hs]⟩
        · rw [hs] at hlen; simp only [Interp.operandsNeeded] at hlen
          simp at hlen; omega
      · simp only [Interp.operandsNeeded] at hlen
        rw [if_neg ht] at hlen; omega
    | arrayLoad t =>
      rcases hs : frame.stack with _ | ⟨a, _ | ⟨b, r⟩⟩
      · exact ⟨"IndexError", by simp [Interp.step, hbc, hs]⟩
      · exact ⟨"IndexError", by simp [Interp.step, hbc, hs]⟩
      · rw [hs] at hlen; simp only [Interp.operandsNeeded] at hlen
        simp at hlen; omega
    | ret ty =>
      cases ty with
      | none => simp only [Interp.operandsNeeded] at hlen; omega
      | some t' =>
        cases t' with
        | int =>
          rcases hs : frame.stack with _ | ⟨a, r⟩
          · exact ⟨"IndexError", by simp [Interp.step, hbc, hs]⟩
          · rw [hs] at hlen; simp only [Interp.operandsNeeded] at hlen
            simp at hlen
        | reference =>
          rcases hs : frame.stack with _ | ⟨a, r⟩
          · exact ⟨"IndexError", by simp [Interp.step, hbc, hs]⟩
          · rw [hs] at hlen; simp only [Interp.operandsNeeded] at hlen
            simp at hlen
        | short => simp only [Interp.operandsNeeded] at hlen; omega
        | char => simp only [Interp.operandsNeeded] at hlen; omega
        | boolean => simp only [Interp.operandsNeeded] at hlen; omega
        | array e => simp only [Interp.operandsNeeded] at hlen; omega
        | object n => simp only [Interp.operandsNeeded] at hlen; omega
    | newArray t dim =>
      by_cases ht : t = .int ∧ dim ≤ 1
      · obtain ⟨ht1, ht2⟩ := ht
        subst ht1
        rcases hs : frame.stack with _ | ⟨a, r⟩
        · exact ⟨"IndexError", by simp [Interp.step, hbc, hs, ht2]⟩
        · rw [hs] at hlen; simp only [Interp.operandsNeeded] at hlen
          simp [ht2] at hlen
      · simp only [Interp.operandsNeeded] at hlen
        rw [if_neg ht] at hlen; omega
    | invokeStatic callee n =>
      have hn : frame.stack.length < n := by
        simpa only [Interp.operandsNeeded] using hlen
      exact ⟨"IndexError",
        by simp [Interp.step, hbc, popN_eq_none_of_lt n frame.stack hn]⟩
  · intro prog bcK frame restF pc0 op hbc hlen
    cases op with
    | push v => simp only [Interp.operandsNeeded] at hlen; omega
    | load t i => simp only [Interp.operandsNeeded] at hlen; omega
    | goto t => simp only [Interp.operandsNeeded] at hlen; omega
    | newObj c => simp only [Interp.operandsNeeded] at hlen; omega
    | incr i a => simp only [Interp.operandsNeeded] at hlen; omega
    | invokeSpecial b => simp only [Interp.operandsNeeded] at hlen; omega
    | getField f s => simp only [Interp.operandsNeeded] at hlen; omega
    | throwOp => simp only [Interp.operandsNeeded] at hlen; omega
    | dup w =>
      rcases hs : frame.stack with _ | ⟨a, r⟩
      · simp [AbsInt.astep, hbc, hs]
      · rw [hs] at hlen; simp only [Interp.operandsNeeded] at hlen
        simp at hlen
    | ifz c t =>
      rcases hs : frame.stack with _ | ⟨a, r⟩
      · simp [AbsInt.astep, hbc, hs]
      · rw [hs] at hlen; simp only [Interp.operandsNeeded] at hlen
        simp at hlen
    | cast s t =>
      rcases hs : frame.stack with _ | ⟨a, r⟩
      · simp [AbsInt.astep, hbc, hs]
      · rw [hs] at hlen; simp only [Interp.operandsNeeded] at hlen
        simp at hlen
    | arrayLength => simp [AbsInt.astep, hbc]
    | ifCmp c t =>
      rcases hs : frame.stack with _ | ⟨a, _ | ⟨b, r⟩⟩
      · simp [AbsInt.astep, hbc, hs]
      · simp [AbsInt.astep, hbc, hs]
      · rw [hs] at hlen; simp only [Interp.operandsNeeded] at hlen
        simp at hlen; omega
    | binary t op' =>
      by_cases ht : t = .int
      · subst ht
        rcases hs : frame.stack with _ | ⟨a, _ | ⟨b, r⟩⟩
        · simp [AbsInt.astep, hbc, hs]
        · simp [AbsInt.astep, hbc, hs]
        · rw [hs] at hlen; simp only [Interp.operandsNeeded] at hlen
          simp at hlen; omega
      · simp only [Interp.operandsNeeded] at hlen
        rw [if_neg (by simp [ht])] at hlen; omega
    | store t i =>
      by_cases ht : t = .int ∨ t = .reference
      · rcases hs : frame.stack with _ | ⟨a, r⟩
        · rcases ht with ht | ht <;> subst ht
          · simp [AbsInt.astep, hbc, hs]
          · simp [AbsInt.astep, hbc, hs]
        · rw [hs] at hlen; simp only [Interp.operandsNeeded] at hlen
          simp [ht] at hlen
      · simp only [Interp.operandsNeeded] at hlen
        rw [if_neg ht] at hlen; omega
    | arrayStore t =>
      by_cases ht : t = .int
      · subst ht
        simp [AbsInt.astep, hbc]
      · simp only [Interp.operandsNeeded] at hlen
        rw [if_neg ht] at hlen; omega
    | arrayLoad t => simp [AbsInt.astep, hbc]
    | ret ty =>
      cases ty with
      | none => simp only [Interp.operandsNeeded] at hlen; omega
      | some t' =>
        cases t' with
        | int =>
          rcases hs : frame.stack with _ | ⟨a, r⟩
          · simp [AbsInt.astep, hbc, hs]
          · rw [hs] at hlen; simp only [Interp.operandsNeeded] at hlen
            simp at hlen
        | reference =>
          rcases hs : frame.stack with _ | ⟨a, r⟩
          · simp [AbsInt.astep, hbc, hs]
          · rw [hs] at hlen; simp only [Interp.operandsNeeded] at hlen
            simp at hlen
        | short => simp only [Interp.operandsNeeded] at hlen; omega
        | char => simp only [Interp.operandsNeeded] at hlen; omega
        | boolean => simp only [Interp.operandsNeeded] at hlen; omega
        | array e => simp only [Interp.operandsNeeded] at hlen; omega
        | object n => simp only [Interp.operandsNeeded] at hlen; omega
    | newArray t dim =>
      by_cases ht : t = .int ∧ dim ≤ 1
      · obtain ⟨ht1, _⟩ := ht
        subst ht1
        simp [AbsInt.astep, hbc]
      · simp only [Interp.operandsNeeded] at hlen
        rw [if_neg ht] at hlen; omega
    | invokeStatic callee n =>
      have hn : frame.stack.length < n := by
        simpa only [Interp.operandsNeeded] using hlen
      simp [AbsInt.astep, hbc, hn]

/-- Witness for C8: `Binary(Int, Div)` on an empty operand stack —
fatal in the concrete interpreter, silently empty in the abstract one. -/
theorem c8_underflow_amended_witness :
    (List.length ([] : List JValue) < Interp.operandsNeeded (.binary .int .div)) ∧
    (∃ msg, Interp.step (progOf (.binary .int .div))
        ⟨[], [⟨[], [], ⟨"m", 0⟩⟩]⟩ = .fatal msg) ∧
    AbsInt.astep (progOf (.binary .int .div)) [] underflowAState = .ok [] :=
  ⟨by decide,
   c8_underflow_amended.1 (progOf (.binary .int .div)) [] ⟨[], [], ⟨"m", 0⟩⟩ []
     (.binary .int .div) rfl (by decide),
   c8_underflow_amended.2 (progOf (.binary .int .div)) [] ⟨[], []⟩ [] ⟨"m", 0⟩
     (.binary .int .div) rfl (by decide)⟩

/-- Looking up key `start + i` in the numbered association list built
from `vs` returns `vs[i]`. -/
theorem lookupA_numberFrom :
    ∀ (vs : List AbsInt.AbstractValue) (start i : Nat) (v : AbsInt.AbstractValue),
      vs[i]? = some v →
      AbsInt.lookupA (AbsInt.numberFrom start vs) (start + i) = some v
  | [], _, i, v, h => by simp at h
  | x :: xs, start, 0, v, h => by
    simp at h
    subst h
    simp [AbsInt.numberFrom, AbsInt.lookupA]
  | x :: xs, start, i + 1, v, h => by
    simp at h
    have ih := lookupA_numberFrom xs (start + 1) i v h
    simp only [AbsInt.numberFrom, AbsInt.lookupA]
    rw [if_neg (by omega)]
    have he : start + 1 + i = start + (i + 1) := by omega
    rw [he] at ih
    exact ih

/-- C6 (corrected): when the analyzer begins abstract interpretation of
a method, the initial abstract local for parameter `i` of type `t` is
`[min K, max K]` annotated with K for an int parameter with non-empty K,
the FINITE interval `[-sys.maxsize, sys.maxsize]` (not `⊤ = [-∞, +∞]`)
for an int parameter with empty K, and the EMPTY (untracked) interval ⊥
(not `⊤`) for a non-int parameter; the initial operand stack is empty
and the initial PC is `(method, 0)`; and whenever the analyzer returns,
its input-interval list is exactly this initial per-parameter interval
list, unchanged by the analysis. -/
theorem c6_initial_state_and_returned_intervals (prog : Program)
    (methodid : MethodId) (inputTypes : List JType) (K : List Int) :
    (∃ locals,
      AbsInt.initialstate_from_method methodid inputTypes K =
        { perInst := [(⟨methodid, 0⟩, ⟨[⟨locals, []⟩], ⟨methodid, 0⟩⟩)],
          needswork := [⟨methodid, 0⟩] } ∧
      ∀ (i : Nat) (t : JType), inputTypes[i]? = some t →
        AbsInt.lookupA locals i = some (
          if t = .int then
            if K ≠ [] then
              ⟨.int, { lower := .num (AbsInt.kMin K), upper := .num (AbsInt.kMax K),
                       K := AbsInt.sortK K }⟩
            else ⟨.int, { lower := .num (-AbsInt.maxsize), upper := .num AbsInt.maxsize }⟩
          else ⟨t, Interval.empty⟩)) ∧
    (∀ (i : Nat) (t : JType), inputTypes[i]? = some t →
      (AbsInt.initialInputIntervals inputTypes K)[i]? = some (
        if t = .int then
          if K ≠ [] then
            { lower := .num (AbsInt.kMin K), upper := .num (AbsInt.kMax K),
              K := AbsInt.sortK K }
          else { lower := .num (-AbsInt.maxsize), upper := .num AbsInt.maxsize }
        else Interval.empty)) ∧
    (∀ fin ivs,
      AbsInt.abstract_interpretation prog methodid inputTypes K = .ok (fin, ivs) →
      ivs = AbsInt.initialInputIntervals inputTypes K) := by
  refine ⟨⟨AbsInt.numberFrom 0
      (inputTypes.map (AbsInt.AbstractValue.from_concrete_w_K K)), rfl, ?_⟩, ?_, ?_⟩
  · intro i t h
    have hm : (inputTypes.map (AbsInt.AbstractValue.from_concrete_w_K K))[i]? =
        some (AbsInt.AbstractValue.from_concrete_w_K K t) := by
      simp [List.getElem?_map, h]
    have hl := lookupA_numberFrom _ 0 i _ hm
    rw [Nat.zero_add] at hl
    rw [hl]
    simp only [AbsInt.AbstractValue.from_concrete_w_K]
  · intro i t h
    simp [AbsInt.initialInputIntervals, List.getElem?_map, h]
  · intro fin ivs h
    simp only [AbsInt.abstract_interpretation, Bind.bind, Except.bind] at h
    cases hl : AbsInt.loopIter prog K AbsInt.MAX_STEPS
        ⟨AbsInt.initialstate_from_method methodid inputTypes K, [], false⟩ with
    | error e =>
      rw [hl] at h
      simp at h
    | ok r =>
      rw [hl] at h
      simp [Pure.pure, Except.pure] at h
      exact h.2.symm

/-- C6 counterexample: with parameter types `(reference, int)` and
`K = ∅`, the analyzer's initial (and returned) per-parameter intervals
are the EMPTY interval (the non-int parameter is untracked) and
`[-sys.maxsize, sys.maxsize]` — neither is the claimed `⊤ = [-∞, +∞]`. -/
theorem c6_counterexample :
    AbsInt.abstract_interpretation (progOf (.ret none)) "m" [.reference, .int] [] =
      .ok (["ok"], [Interval.empty,
        { lower := .num (-AbsInt.maxsize), upper := .num AbsInt.maxsize }]) ∧
    Interval.empty ≠ Interval.universal ∧
    ({ lower := .num (-AbsInt.maxsize), upper := .num AbsInt.maxsize } : Interval) ≠
      Interval.universal :=
  ⟨rfl, by decide, by decide⟩

/-- Witness for C6 at the concrete run of `c6_counterexample`. -/
theorem c6_witness :
    (([.reference, .int] : List JType)[0]? = some JType.reference) ∧
    (AbsInt.initialInputIntervals [.reference, .int] [])[0]? = some Interval.empty ∧
    ([Interval.empty,
      { lower := .num (-AbsInt.maxsize), upper := .num AbsInt.maxsize }] : List Interval) =
      AbsInt.initialInputIntervals [.reference, .int] [] :=
  ⟨rfl,
   (c6_initial_state_and_returned_intervals (progOf (.ret none)) "m"
     [.reference, .int] []).2.1 0 .reference rfl,
   (c6_initial_state_and_returned_intervals (progOf (.ret none)) "m"
     [.reference, .int] []).2.2 ["ok"]
     [Interval.empty,
      { lower := .num (-AbsInt.maxsize), upper := .num AbsInt.maxsize }] rfl⟩

theorem EInt.ble_refl (a : EInt) : EInt.ble a a = true := by
  cases a <;> simp [EInt.ble]

theorem EInt.ble_trans {a b c : EInt} (h1 : EInt.ble a b = true)
    (h2 : EInt.ble b c = true) : EInt.ble a c = true := by
  cases a <;> cases b <;> cases c <;> simp_all [EInt.ble]; omega

theorem EInt.ble_antisymm {a b : EInt} (h1 : EInt.ble a b = true)
    (h2 : EInt.ble b a = true) : a = b := by
  cases a <;> cases b <;> simp_all [EInt.ble]; omega

theorem EInt.blt_eq_false_iff {a b : EInt} :
    EInt.blt a b = false ↔ EInt.ble b a = true := by
  cases a <;> cases b <;> simp [EInt.blt, EInt.ble]; omega

theorem EInt.ble_emin_left (a b : EInt) : EInt.ble (EInt.emin a b) a = true := by
  unfold EInt.emin
  split
  · exact EInt.ble_refl a
  · next h =>
    cases a <;> cases b <;> simp_all [EInt.ble]; omega

theorem EInt.emax_ble_left (a b : EInt) : EInt.ble a (EInt.emax a b) = true := by
  unfold EInt.emax
  split
  · next h => exact h
  · exact EInt.ble_refl a

theorem EInt.ble_posinf (x : EInt) : EInt.ble x .posinf = true := by
  cases x <;> rfl

theorem EInt.eq_neginf_of_ble {x : EInt} (h : EInt.ble x .neginf = true) : x = .neginf := by
  cases x <;> simp_all [EInt.ble]

theorem EInt.eq_posinf_of_ble {x : EInt} (h : EInt.ble .posinf x = true) : x = .posinf := by
  cases x <;> simp_all [EInt.ble]

theorem minKJ_loop_le (a b : EInt) :
    ∀ (Ks : List Int) (ret : EInt), EInt.ble ret (EInt.emin a b) = true →
      EInt.ble (Interval.minKJ.loop a b Ks ret) (EInt.emin a b) = true
  | [], _, h => h
  | k :: rest, ret, h => by
    simp only [Interval.minKJ.loop]
    split
    · exact h
    · next hlt =>
      exact minKJ_loop_le a b rest (.num k)
        (EInt.blt_eq_false_iff.mp (by simpa using hlt))

theorem minKJ_le (a b : EInt) (Ks : List Int) :
    EInt.ble (Interval.minKJ a b Ks) (EInt.emin a b) = true := by
  unfold Interval.minKJ
  split_ifs
  · rfl
  · rfl
  · rfl
  · exact minKJ_loop_le a b Ks .neginf rfl

theorem minKJ_loop_mem (a b : EInt) :
    ∀ (Ks : List Int) (ret : EInt),
      Interval.minKJ.loop a b Ks ret = ret ∨
      ∃ k ∈ Ks, Interval.minKJ.loop a b Ks ret = EInt.num k
  | [], _ => Or.inl rfl
  | k :: rest, ret => by
    simp only [Interval.minKJ.loop]
    split
    · exact Or.inl rfl
    · rcases minKJ_loop_mem a b rest (.num k) with h | ⟨k', hk', h⟩
      · exact Or.inr ⟨k, by simp, h⟩
      · exact Or.inr ⟨k', by simp [hk'], h⟩

theorem minKJ_mem (a b : EInt) (Ks : List Int) :
    Interval.minKJ a b Ks = .neginf ∨
    ∃ k ∈ Ks, Interval.minKJ a b Ks = EInt.num k := by
  unfold Interval.minKJ
  split_ifs
  · exact Or.inl rfl
  · exact Or.inl rfl
  · exact Or.inl rfl
  · rcases minKJ_loop_mem a b Ks .neginf with h | h
    · exact Or.inl h
    · exact Or.inr h

theorem maxKJ_loop_ge (a b : EInt) :
    ∀ (Ks : List Int),
      EInt.ble (EInt.emax a b) (Interval.maxKJ.loop a b Ks) = true
  | [] => EInt.ble_posinf _
  | k :: rest => by
    simp only [Interval.maxKJ.loop]
    split
    · next h => exact h
    · exact maxKJ_loop_ge a b rest

theorem maxKJ_ge (a b : EInt) (Ks : List Int) :
    EInt.ble (EInt.emax a b) (Interval.maxKJ a b Ks) = true := by
  unfold Interval.maxKJ
  split_ifs
  · exact EInt.ble_posinf _
  · exact EInt.ble_posinf _
  · exact EInt.ble_posinf _
  · exact maxKJ_loop_ge a b Ks

theorem maxKJ_loop_mem (a b : EInt) :
    ∀ (Ks : List Int),
      Interval.maxKJ.loop a b Ks = .posinf ∨
      ∃ k ∈ Ks, Interval.maxKJ.loop a b Ks = EInt.num k
  | [] => Or.inl rfl
  | k :: rest => by
    simp only [Interval.maxKJ.loop]
    split
    · exact Or.inr ⟨k, by simp, rfl⟩
    · rcases maxKJ_loop_mem a b rest with h | ⟨k', hk', h⟩
      · exact Or.inl h
      · exact Or.inr ⟨k', by simp [hk'], h⟩

theorem maxKJ_mem (a b : EInt) (Ks : List Int) :
    Interval.maxKJ a b Ks = .posinf ∨
    ∃ k ∈ Ks, Interval.maxKJ a b Ks = EInt.num k := by
  unfold Interval.maxKJ
  split_ifs
  · exact Or.inl rfl
  · exact Or.inl rfl
  · exact Or.inl rfl
  · exact maxKJ_loop_mem a b Ks

theorem nonempty_iff_ble {x : Interval} :
    x.isEmpty = false ↔ EInt.ble x.lower x.upper = true := by
  unfold Interval.isEmpty
  exact EInt.blt_eq_false_iff

theorem widening_eq_of_nonempty {a b : Interval} (ha : a.isEmpty = false)
    (hb : b.isEmpty = false) :
    a.widening b = { lower := Interval.minKJ a.lower b.lower a.K,
                     upper := Interval.maxKJ a.upper b.upper a.K, K := a.K } := by
  simp [Interval.widening, ha, hb]

theorem widening_nonempty {a b : Interval} (ha : a.isEmpty = false)
    (hb : b.isEmpty = false) : (a.widening b).isEmpty = false := by
  rw [widening_eq_of_nonempty ha hb]
  refine nonempty_iff_ble.mpr ?_
  have h1 : EInt.ble (Interval.minKJ a.lower b.lower a.K) a.lower = true :=
    EInt.ble_trans (minKJ_le a.lower b.lower a.K) (EInt.ble_emin_left a.lower b.lower)
  have h2 : EInt.ble a.lower a.upper = true := nonempty_iff_ble.mp ha
  have h3 : EInt.ble a.upper (Interval.maxKJ a.upper b.upper a.K) = true :=
    EInt.ble_trans (EInt.emax_ble_left a.upper b.upper) (maxKJ_ge a.upper b.upper a.K)
  exact EInt.ble_trans (EInt.ble_trans h1 h2) h3

theorem le_of_isEmpty {x y : Interval} (h : x.isEmpty = true) : x.le y = true := by
  simp [Interval.le, h]

theorem chain_nonempty {x : Nat → Interval}
    (hasc : ∀ n, (x n).le (x (n + 1)) = true ∧ (x (n + 1)).le (x n) = false) :
    ∀ n, (x (n + 1)).isEmpty = false := by
  intro n
  cases he : (x (n + 1)).isEmpty with
  | false => rfl
  | true =>
    have h1 : (x (n + 1)).le (x n) = true := le_of_isEmpty he
    rw [(hasc n).2] at h1
    exact Bool.noConfusion h1

theorem widenSeq_shape {x : Nat → Interval} {K0 : List Int}
    (hK : ∀ n, (x n).K = K0)
    (hasc : ∀ n, (x n).le (x (n + 1)) = true ∧ (x (n + 1)).le (x n) = false) :
    ∀ n, (widenSeq x (n + 1)).K = K0 ∧ (widenSeq x (n + 1)).isEmpty = false := by
  intro n
  induction n with
  | zero =>
    have hne := chain_nonempty hasc 0
    cases h0 : (x 0).isEmpty with
    | true =>
      have heq : widenSeq x 1 = x 1 := by
        show (x 0).widening (x 1) = x 1
        simp [Interval.widening, h0]
      rw [heq]
      exact ⟨hK 1, hne⟩
    | false =>
      constructor
      · show ((x 0).widening (x 1)).K = K0
        rw [widening_eq_of_nonempty h0 hne]
        exact hK 0
      · show ((x 0).widening (x 1)).isEmpty = false
        exact widening_nonempty h0 hne
  | succ n ih =>
    have hne := chain_nonempty hasc (n + 1)
    constructor
    · show ((widenSeq x (n + 1)).widening (x (n + 2))).K = K0
      rw [widening_eq_of_nonempty ih.2 hne]
      exact ih.1
    · show ((widenSeq x (n + 1)).widening (x (n + 2))).isEmpty = false
      exact widening_nonempty ih.2 hne

theorem widenSeq_wform {x : Nat → Interval} {K0 : List Int}
    (hK : ∀ n, (x n).K = K0)
    (hasc : ∀ n, (x n).le (x (n + 1)) = true ∧ (x (n + 1)).le (x n) = false) :
    ∀ n, ((widenSeq x (n + 2)).lower = .neginf ∨
           ∃ k ∈ K0, (widenSeq x (n + 2)).lower = EInt.num k) ∧
         ((widenSeq x (n + 2)).upper = .posinf ∨
           ∃ k ∈ K0, (widenSeq x (n + 2)).upper = EInt.num k) ∧
         (widenSeq x (n + 2)).K = K0 ∧
         (widenSeq x (n + 2)).useWidening = true ∧
         (widenSeq x (n + 2)).isEmpty = false := by
  intro n
  have hs := widenSeq_shape hK hasc
  have hshape : widenSeq x (n + 2) =
      { lower := Interval.minKJ (widenSeq x (n + 1)).lower (x (n + 2)).lower K0,
        upper := Interval.maxKJ (widenSeq x (n + 1)).upper (x (n + 2)).upper K0, K := K0 } := by
    show (widenSeq x (n + 1)).widening (x (n + 2)) = _
    rw [widening_eq_of_nonempty (hs n).2 (chain_nonempty hasc (n + 1)), (hs n).1]
  refine ⟨?_, ?_, ?_, ?_, ?_⟩
  · rw [hshape]
    exact minKJ_mem _ _ _
  · rw [hshape]
    exact maxKJ_mem _ _ _
  · exact (hs (n + 1)).1
  · rw [hshape]
  · exact (hs (n + 1)).2

theorem widenSeq_mono {x : Nat → Interval} {K0 : List Int}
    (hK : ∀ n, (x n).K = K0)
    (hasc : ∀ n, (x n).le (x (n + 1)) = true ∧ (x (n + 1)).le (x n) = false) :
    ∀ n, EInt.ble (widenSeq x (n + 2)).lower (widenSeq x (n + 1)).lower = true ∧
         EInt.ble (widenSeq x (n + 1)).upper (widenSeq x (n + 2)).upper = true := by
  intro n
  have hs := widenSeq_shape hK hasc
  have hshape : widenSeq x (n + 2) =
      { lower := Interval.minKJ (widenSeq x (n + 1)).lower (x (n + 2)).lower K0,
        upper := Interval.maxKJ (widenSeq x (n + 1)).upper (x (n + 2)).upper K0, K := K0 } := by
    show (widenSeq x (n + 1)).widening (x (n + 2)) = _
    rw [widening_eq_of_nonempty (hs n).2 (chain_nonempty hasc (n + 1)), (hs n).1]
  rw [hshape]
  constructor
  · exact EInt.ble_trans (minKJ_le _ _ _) (EInt.ble_emin_left _ _)
  · exact EInt.ble_trans (EInt.emax_ble_left _ _) (maxKJ_ge _ _ _)

theorem countP_le_countP {α : Type} (p q : α → Bool) :
    ∀ (l : List α), (∀ a ∈ l, p a = true → q a = true) →
      l.countP p ≤ l.countP q
  | [], _ => Nat.le_refl _
  | a :: l, h => by
    have ih := countP_le_countP p q l (fun b hb => h b (by simp [hb]))
    by_cases hp : p a = true
    · have hq := h a (by simp) hp
      simp [List.countP_cons, hp, hq]
      omega
    · simp only [List.countP_cons]
      have : ¬ p a := by simpa using hp
      by_cases hq : q a = true <;> simp_all; omega

theorem countP_lt_countP {α : Type} (p q : α → Bool) :
    ∀ (l : List α), (∀ a ∈ l, p a = true → q a = true) →
      ∀ a₀ ∈ l, q a₀ = true → p a₀ = false →
      l.countP p < l.countP q
  | [], _, _, h0, _, _ => by simp at h0
  | a :: l, h, a₀, h0, hq0, hp0 => by
    rcases List.mem_cons.mp h0 with rfl | hmem
    · have hle := countP_le_countP p q l (fun b hb => h b (by simp [hb]))
      simp [List.countP_cons, hp0, hq0]
      omega
    · have ih := countP_lt_countP p q l (fun b hb => h b (by simp [hb])) a₀ hmem hq0 hp0
      simp only [List.countP_cons]
      by_cases hp : p a = true
      · have hq := h a (by simp) hp
        simp [hp, hq]
        omega
      · have : ¬ p a := by simpa using hp
        by_cases hq : q a = true <;> simp_all; omega

theorem mu_strict (K0 : List Int) {y y' : Interval}
    (hyK : y.K = K0) (hy'K : y'.K = K0)
    (hyw : y.useWidening = true) (hy'w : y'.useWidening = true)
    (hlo : y.lower = .neginf ∨ ∃ k ∈ K0, y.lower = EInt.num k)
    (hhi : y.upper = .posinf ∨ ∃ k ∈ K0, y.upper = EInt.num k)
    (hmonlo : EInt.ble y'.lower y.lower = true)
    (hmonhi : EInt.ble y.upper y'.upper = true)
    (hne : y' ≠ y) : mu K0 y' < mu K0 y := by
  have hbound : y'.lower ≠ y.lower ∨ y'.upper ≠ y.upper := by
    by_contra hc
    push_neg at hc
    exact hne (by
      cases y
      cases y'
      simp_all)
  have hrle : rankLo K0 y'.lower ≤ rankLo K0 y.lower :=
    countP_le_countP _ _ K0 (fun k _ hk => EInt.ble_trans hk hmonlo)
  have hhle : rankHi K0 y'.upper ≤ rankHi K0 y.upper :=
    countP_le_countP _ _ K0 (fun k _ hk => EInt.ble_trans hmonhi hk)
  rcases hbound with hb | hb
  · rcases hlo with hninf | ⟨k0, hk0, hnum⟩
    · exact absurd (EInt.eq_neginf_of_ble (hninf ▸ hmonlo))
        (fun h => hb (h.trans hninf.symm))
    · have hstrict : rankLo K0 y'.lower < rankLo K0 y.lower := by
        refine countP_lt_countP _ _ K0 (fun k _ hk => EInt.ble_trans hk hmonlo) k0 hk0 ?_ ?_
        · rw [hnum]
          exact EInt.ble_refl _
        · cases hpk : EInt.ble (EInt.num k0) y'.lower with
          | false => rfl
          | true =>
            have heq : y'.lower = EInt.num k0 :=
              EInt.ble_antisymm (hnum ▸ hmonlo) hpk
            exact absurd (heq.trans hnum.symm) hb
      unfold mu
      omega
  · rcases hhi with hpinf | ⟨k0, hk0, hnum⟩
    · exact absurd (EInt.eq_posinf_of_ble (hpinf ▸ hmonhi))
        (fun h => hb (h.trans hpinf.symm))
    · have hstrict : rankHi K0 y'.upper < rankHi K0 y.upper := by
        refine countP_lt_countP _ _ K0 (fun k _ hk => EInt.ble_trans hmonhi hk) k0 hk0 ?_ ?_
        · rw [hnum]
          exact EInt.ble_refl _
        · cases hpk : EInt.ble y'.upper (EInt.num k0) with
          | false => rfl
          | true =>
            have heq : y'.upper = EInt.num k0 :=
              EInt.ble_antisymm hpk (hnum ▸ hmonhi)
            exact absurd (heq.trans hnum.symm) hb
      unfold mu
      omega

/-- C5 (corrected): along any strictly ascending chain of intervals
sharing the constant list K, the widened sequence changes value at most
`2·|K| + 2` times — the count of strict increases is bounded, though the
INDEX of the last change is not (see the counterexample). -/
theorem c5_widening_change_bound (x : Nat → Interval) (K0 : List Int)
    (hK : ∀ n, (x n).K = K0)
    (hasc : ∀ n, (x n).le (x (n + 1)) = true ∧ (x (n + 1)).le (x n) = false) :
    ∀ n, widenChanges x n ≤ 2 * K0.length + 2 := by
  have hWF := widenSeq_wform hK hasc
  have hmono := widenSeq_mono hK hasc
  have hdec : ∀ n, widenSeq x (n + 3) ≠ widenSeq x (n + 2) →
      mu K0 (widenSeq x (n + 3)) < mu K0 (widenSeq x (n + 2)) := by
    intro n hne
    exact mu_strict K0 (hWF n).2.2.1 (hWF (n + 1)).2.2.1
      (hWF n).2.2.2.1 (hWF (n + 1)).2.2.2.1 (hWF n).1 (hWF n).2.1
      (hmono (n + 1)).1 (hmono (n + 1)).2 hne
  have key : ∀ m, widenChanges x (m + 2) + mu K0 (widenSeq x (m + 2)) ≤
      2 + mu K0 (widenSeq x 2) := by
    intro m
    induction m with
    | zero =>
      have h2 : widenChanges x 2 ≤ 2 := by
        have e : widenChanges x 2 = widenChanges x 0 +
            (if widenSeq x 1 ≠ widenSeq x 0 then 1 else 0) +
            (if widenSeq x 2 ≠ widenSeq x 1 then 1 else 0) := rfl
        rw [e, (show widenChanges x 0 = 0 from rfl)]
        split_ifs <;> omega
      show widenChanges x 2 + mu K0 (widenSeq x 2) ≤ 2 + mu K0 (widenSeq x 2)
      omega
    | succ m ih =>
      show widenChanges x (m + 3) + mu K0 (widenSeq x (m + 3)) ≤ _
      by_cases hch : widenSeq x (m + 3) ≠ widenSeq x (m + 2)
      · have hlt := hdec m hch
        have : widenChanges x (m + 3) = widenChanges x (m + 2) + 1 := by
          simp [widenChanges, hch]
        omega
      · push_neg at hch
        have h1 : widenChanges x (m + 3) = widenChanges x (m + 2) := by
          simp [widenChanges, hch]
        have h2 : mu K0 (widenSeq x (m + 3)) = mu K0 (widenSeq x (m + 2)) := by
          rw [hch]
        omega
  have hmu2 : mu K0 (widenSeq x 2) ≤ 2 * K0.length := by
    unfold mu rankLo rankHi
    have h1 := List.countP_le_length (l := K0)
      (p := fun k => EInt.ble (.num k) (widenSeq x 2).lower)
    have h2 := List.countP_le_length (l := K0)
      (p := fun k => EInt.ble (widenSeq x 2).upper (.num k))
    omega
  intro n
  match n with
  | 0 =>
    show (0 : Nat) ≤ 2 * K0.length + 2
    omega
  | 1 =>
    have e : widenChanges x 1 = widenChanges x 0 +
        (if widenSeq x 1 ≠ widenSeq x 0 then 1 else 0) := rfl
    rw [e, (show widenChanges x 0 = 0 from rfl)]
    split_ifs <;> omega
  | m + 2 =>
    have := key m
    omega

/-- C5 counterexample: `chain5` is a strictly ascending chain with
`|K| = 2`, yet its widened sequence still changes at index 10 > 2·|K|+2
= 6: it is not constant from any index `N ≤ 6` on. -/
theorem c5_widening_counterexample :
    (∀ n, (chain5 n).le (chain5 (n + 1)) = true ∧
          (chain5 (n + 1)).le (chain5 n) = false) ∧
    (∀ n, (chain5 n).K = [0, 10]) ∧
    2 * ([0, 10] : List Int).length + 2 = 6 ∧
    (∀ N, N ≤ 6 → widenSeq chain5 10 ≠ widenSeq chain5 N) := by
  refine ⟨?_, fun n => rfl, rfl, by decide⟩
  intro n
  constructor
  · simp [chain5, Interval.le, Interval.isEmpty, EInt.blt, EInt.ble]
    omega
  · simp [chain5, Interval.le, Interval.isEmpty, EInt.blt, EInt.ble]
    omega

/-- Witness for C5: on `chainW` (K = {0}) the widened sequence changes
at most `2·1 + 2 = 4` times within any prefix, here at `n = 12`. -/
theorem c5_widening_change_bound_witness :
    (∀ n, (chainW n).K = [0]) ∧
    (∀ n, (chainW n).le (chainW (n + 1)) = true ∧
          (chainW (n + 1)).le (chainW n) = false) ∧
    widenChanges chainW 12 ≤ 2 * ([0] : List Int).length + 2 :=
  ⟨fun n => rfl,
   by
     intro n
     constructor
     · simp [chainW, Interval.le, Interval.isEmpty, EInt.blt, EInt.ble]
       omega
     · simp [chainW, Interval.le, Interval.isEmpty, EInt.blt, EInt.ble]
       omega,
   c5_widening_change_bound chainW [0] (fun n => rfl)
     (by
       intro n
       constructor
       · simp [chainW, Interval.le, Interval.isEmpty, EInt.blt, EInt.ble]
         omega
       · simp [chainW, Interval.le, Interval.isEmpty, EInt.blt, EInt.ble]
         omega) 12⟩

theorem resolveOverlaps_starts :
    ∀ l : List BlockRange,
      (resolveOverlaps l).map (fun b => b.start) = l.map (fun b => b.start)
  | [] => rfl
  | [_] => rfl
  | b :: b2 :: rest => by
    have ih := resolveOverlaps_starts (b2 :: rest)
    simp only [resolveOverlaps, List.map_cons] at ih ⊢
    rw [ih]
    split <;> rfl

theorem chain_start_lb :
    ∀ (b : BlockRange) (rest : List BlockRange),
      List.Chain' (fun a c => a.start < c.start) (b :: rest) →
      ∀ c ∈ b :: rest, b.start ≤ c.start
  | _, [], _, c, hc => by
    simp at hc
    subst hc
    exact Nat.le_refl _
  | b, b2 :: rest, h, c, hc => by
    rw [List.chain'_cons] at h
    rcases List.mem_cons.mp hc with rfl | hc2
    · exact Nat.le_refl _
    · have := chain_start_lb b2 rest h.2 c hc2
      omega

/-- Supporting half of the C7 coverage/disjointness invariant: after
`resolve_overlapping_blocks`, the ranges of distinct blocks (in their
sorted-by-start order, starts strictly increasing) are pairwise
disjoint: every earlier block ends strictly before every later one
starts. The coverage half, which depends on the full recursive
`CFG.build`, is not settled here. -/
theorem resolveOverlaps_pairwise_disjoint :
    ∀ (l : List BlockRange), List.Chain' (fun a b => a.start < b.start) l →
      List.Pairwise (fun a b => a.stop < b.start) (resolveOverlaps l)
  | [], _ => List.Pairwise.nil
  | [b], _ => by simp [resolveOverlaps]
  | b :: b2 :: rest, h => by
    rw [List.chain'_cons] at h
    obtain ⟨hlt, hchain⟩ := h
    have ih := resolveOverlaps_pairwise_disjoint (b2 :: rest) hchain
    show List.Pairwise _
      ((if b2.start ≤ b.stop then { b with stop := b2.start - 1 } else b) ::
        resolveOverlaps (b2 :: rest))
    refine List.Pairwise.cons ?_ ih
    intro c hc
    have hcs : b2.start ≤ c.start := by
      have hmem : c.start ∈ (resolveOverlaps (b2 :: rest)).map (fun b => b.start) :=
        List.mem_map_of_mem _ hc
      rw [resolveOverlaps_starts] at hmem
      simp only [List.map_cons, List.mem_cons, List.mem_map] at hmem
      rcases hmem with h1 | ⟨d, hd, hds⟩
      · omega
      · have := chain_start_lb b2 rest hchain d (List.mem_cons_of_mem _ hd)
        omega
    split
    · next hover =>
      show b2.start - 1 < c.start
      omega
    · next hover =>
      show b.stop < c.start
      omega

end Claims

end Jpamb
